import Mathlib

/-!
Verification development for the context retrieval, deduplication, ranking and
memory-management subsystem of the llm-reasoning chat backend.

Modelling conventions, used throughout:
* Text is modelled as `List Char` (abbreviated `Str`).  JavaScript string
  operations (`toLowerCase`, regex replaces, `trim`, `substring`, `split`)
  are reimplemented character by character; they agree with the source for
  strings of Basic Multilingual Plane characters, which covers every input
  used in this development.
* JavaScript numbers are modelled by `ℚ` (or `ℤ`/`ℕ`) wherever the source
  computes exactly on them (hashes, counts, thresholds, weighted sums of
  rational inputs), and by `ℝ` where the source uses `Math.exp` or
  `Math.sqrt` (cosine similarities and decay scores).
* A JavaScript `Map` is modelled as an association list in insertion order:
  `set` of a fresh key appends, `set` of an existing key updates in place,
  `delete` removes the entry, iteration follows the list.  A `Set` is an
  insertion-ordered list without duplicates.
* External collaborators (embedding service, text-generation LLM) are
  oracle parameters: deterministic functions supplied to the model, so each
  theorem quantifies over all possible collaborator behaviours.
-/

set_option maxRecDepth 100000

abbrev Str := List Char

/-- JavaScript regex `\w`: ASCII letters, digits, underscore. -/
def isWordChar (c : Char) : Bool :=
  (('a' ≤ c && c ≤ 'z') || ('A' ≤ c && c ≤ 'Z') || ('0' ≤ c && c ≤ '9') || c = '_')

/-- JavaScript regex `\s` restricted to the ASCII whitespace characters
(space, tab, line feed, carriage return, vertical tab, form feed); the
Unicode space characters also matched by `\s` do not occur in the inputs
of this development. -/
def isSpaceChar (c : Char) : Bool :=
  (c = ' ' || c = Char.ofNat 9 || c = Char.ofNat 10 || c = Char.ofNat 13 ||
   c = Char.ofNat 11 || c = Char.ofNat 12)

/-- `String.prototype.toLowerCase`, ASCII range. -/
def toLowerStr (s : Str) : Str := s.map Char.toLower

/-- `String.prototype.toUpperCase`, ASCII range. -/
def toUpperStr (s : Str) : Str := s.map Char.toUpper

/-- Helper for `.replace(/\s+/g, " ")`: the flag records whether the
previous character was whitespace, so a run contributes one space. -/
def collapseWsAux : Bool → Str → Str
  | _, [] => []
  | prevSpace, c :: t =>
    if isSpaceChar c then
      (if prevSpace then collapseWsAux true t else ' ' :: collapseWsAux true t)
    else c :: collapseWsAux false t

/-- `.replace(/\s+/g, " ")`. -/
def collapseWs (s : Str) : Str := collapseWsAux false s

/-- `String.prototype.trim`. -/
def trimStr (s : Str) : Str :=
  ((s.dropWhile (isSpaceChar ·)).reverse.dropWhile (isSpaceChar ·)).reverse

/-- `.replace(/[^\w\s]/g, " ")`. -/
def stripNonWord (s : Str) : Str :=
  s.map (fun c => if isWordChar c || isSpaceChar c then c else ' ')

/-- `String.prototype.split(" ")`: split at every single space, keeping
empty fragments. -/
def splitOnSpace : Str → List Str
  | [] => [[]]
  | c :: t =>
    match splitOnSpace t with
    | [] => []
    | w :: ws => if c = ' ' then [] :: w :: ws else (c :: w) :: ws

/-- `Array.prototype.join(" ")`. -/
def joinSpace (l : List Str) : Str := List.intercalate [' '] l

/-- Wrap an integer to a signed 32-bit value, as `hash & hash` does after
JavaScript bitwise coercion. -/
def toInt32 (n : Int) : Int := (n + 2 ^ 31) % 2 ^ 32 - 2 ^ 31

/-- One step of the hash loop `hash = (hash << 5) - hash + charCode` with
32-bit coercions: the shift operand is coerced to 32 bits, the sum is then
coerced again by `hash & hash`. -/
def jsHashStep (h : Int) (c : Nat) : Int := toInt32 (toInt32 (h * 32) - h + c)

/-- The 32-bit string hash shared by the Deduplicator, the embeddings
client and the semantic context manager; `charCodeAt` returns the UTF-16
code unit, which equals the code point for the BMP characters used here. -/
def jsHash (s : Str) : Int := s.foldl (fun h c => jsHashStep h c.toNat) 0

/-- Digit characters for `Number.prototype.toString(radix)`. -/
def radixDigit (n : Nat) : Char :=
  if n < 10 then Char.ofNat (48 + n) else Char.ofNat (87 + n)

/-- Digits of `n` in base `b`, most significant first.  The fuel argument
bounds the number of digits; `64` is enough for every value below `2^64`,
far above the 32-bit hashes rendered in this development. -/
def natToRadixAux (b : Nat) : Nat → Nat → Str
  | 0, _ => []
  | _ + 1, 0 => []
  | fuel + 1, n => natToRadixAux b fuel (n / b) ++ [radixDigit (n % b)]

/-- `Number.prototype.toString(radix)` for 32-bit integer values. -/
def intToRadix (b : Nat) (i : Int) : Str :=
  if i = 0 then ['0']
  else if i < 0 then '-' :: natToRadixAux b 64 i.natAbs
  else natToRadixAux b 64 i.natAbs

/-- Association-list lookup, modelling `Map.prototype.get`. -/
def mapGet {α β : Type} [DecidableEq α] (m : List (α × β)) (k : α) : Option β :=
  (m.find? (fun e => e.1 = k)).map Prod.snd

/-- `Map.prototype.set`: update in place when the key exists, append
otherwise (JavaScript maps iterate in insertion order). -/
def mapSet {α β : Type} [DecidableEq α] (m : List (α × β)) (k : α) (v : β) :
    List (α × β) :=
  match m with
  | [] => [(k, v)]
  | e :: t => if e.1 = k then (k, v) :: t else e :: mapSet t k v

/-- Strict lexicographic comparison of two character lists by code unit,
the order used by `Array.prototype.sort()` on BMP strings. -/
def lexLtB : Str → Str → Bool
  | [], [] => false
  | [], _ :: _ => true
  | _ :: _, [] => false
  | a :: s, b :: t => if a < b then true else if b < a then false else lexLtB s t

/-- The sorting relation of the default string comparator. -/
def lexLe (a b : Str) : Prop := lexLtB b a = false

instance : DecidableRel lexLe := fun a b => by unfold lexLe; infer_instance

theorem lexLtB_irrefl (a : Str) : lexLtB a a = false := by
  induction a with
  | nil => rfl
  | cons c t ih => simp [lexLtB, ih]

theorem lexLtB_not_symm : ∀ a b : Str, lexLtB a b = true → lexLtB b a = false
  | [], [], h => by simp [lexLtB] at h
  | [], _ :: _, _ => rfl
  | _ :: _, [], h => by simp [lexLtB] at h
  | a :: s, b :: t, h => by
    by_cases hab : a < b
    · simp [lexLtB, hab, asymm hab, not_lt_of_lt hab]
    · by_cases hba : b < a
      · simp [lexLtB, hab, hba] at h
      · have : lexLtB s t = true := by simpa [lexLtB, hab, hba] using h
        simp [lexLtB, hab, hba, lexLtB_not_symm s t this]

theorem lexLtB_trichotomy : ∀ a b : Str,
    lexLtB a b = false → lexLtB b a = false → a = b
  | [], [], _, _ => rfl
  | [], _ :: _, h, _ => by simp [lexLtB] at h
  | _ :: _, [], _, h => by simp [lexLtB] at h
  | a :: s, b :: t, h1, h2 => by
    by_cases hab : a < b
    · simp [lexLtB, hab] at h1
    · by_cases hba : b < a
      · simp [lexLtB, hba, not_lt_of_lt hba] at h2
      · have hs1 : lexLtB s t = false := by simpa [lexLtB, hab, hba] using h1
        have hs2 : lexLtB t s = false := by simpa [lexLtB, hba, hab] using h2
        have heq : a = b := le_antisymm (not_lt.mp hba) (not_lt.mp hab)
        rw [heq, lexLtB_trichotomy s t hs1 hs2]

theorem lexLtB_false_trans : ∀ a b c : Str,
    lexLtB b a = false → lexLtB c b = false → lexLtB c a = false
  | [], _, c, _, _ => by cases c <;> rfl
  | _ :: _, [], _, h1, _ => by simp [lexLtB] at h1
  | _ :: _, _ :: _, [], _, h2 => by simp [lexLtB] at h2
  | a :: s, b :: t, c :: u, h1, h2 => by
    have hba : ¬b < a := by
      intro h; simp [lexLtB, h] at h1
    have hcb : ¬c < b := by
      intro h; simp [lexLtB, h] at h2
    have hca : ¬c < a := by
      intro h
      exact hcb (lt_of_lt_of_le h (not_lt.mp hba))
    by_cases hac : a < c
    · simp [lexLtB, hca, hac]
    · have hnab : ¬a < b := by
        intro h
        exact hac (lt_of_lt_of_le h (not_lt.mp hcb))
      have hab : a = b := le_antisymm (not_lt.mp hba) (not_lt.mp hnab)
      have hbc : b = c := le_antisymm (not_lt.mp hcb) (not_lt.mp (hab ▸ hac))
      have hnbc : ¬b < c := by rw [hbc]; exact lt_irrefl c
      have hs1 : lexLtB t s = false := by
        simpa [lexLtB, hba, hnab] using h1
      have hs2 : lexLtB u t = false := by
        simpa [lexLtB, hcb, hnbc] using h2
      simp [lexLtB, hca, hac, lexLtB_false_trans s t u hs1 hs2]

instance : IsTotal Str lexLe := ⟨fun a b => by
  unfold lexLe
  rcases h : lexLtB b a with _ | _
  · exact Or.inl rfl
  · exact Or.inr (lexLtB_not_symm b a h)⟩

instance : IsTrans Str lexLe := ⟨fun a b c h1 h2 => lexLtB_false_trans a b c h1 h2⟩

instance : IsAntisymm Str lexLe := ⟨fun a b h1 h2 => lexLtB_trichotomy a b h2 h1⟩

/-! ## Deduplicator (src/rag/deduplicator.ts) -/

namespace Dedup

/-- `Deduplicator.normalizeForComparison`: lowercase, replace non-word
punctuation by spaces, collapse whitespace, trim. -/
def normalizeForComparison (text : Str) : Str :=
  trimStr (collapseWs (stripNonWord (toLowerStr text)))

/-- `Deduplicator.generateContentHash`: the 32-bit hash rendered in
base 36. -/
def generateContentHash (content : Str) : Str :=
  intToRadix 36 (jsHash content)

/-- The words longer than three characters drawn from the normalized
content, in text order (the `split`/`filter` stage of
`generateSemanticHash`). -/
def contentWords (content : Str) : List Str :=
  (splitOnSpace (normalizeForComparison content)).filter (fun w => 3 < w.length)

/-- `Deduplicator.generateSemanticHash`: sort the words with the default
string comparator, keep the first ten, join with spaces and hash.  The
source performs no deduplication, so repeated words are retained. -/
def generateSemanticHash (content : Str) : Str :=
  generateContentHash
    (joinSpace ((List.insertionSort lexLe (contentWords content)).take 10))

/-- Modelled from the spec, for comparison with `generateSemanticHash`:
the spec asks for the sorted, deduplicated set of words longer than three
characters, the first ten of which are concatenated and hashed. -/
def specSemanticHashDedup (content : Str) : Str :=
  generateContentHash
    (joinSpace (((List.insertionSort lexLe (contentWords content)).dedup).take 10))

/-- C2, counterexample: the deduplicating hash demanded by the claim differs
from the hash the source computes.  The contents "aaaa aaaa bbbb cccc" and
"aaaa bbbb cccc" have the same set of over-3-character words (ignoring
repetitions), yet the source assigns them different semantic hashes, because
`generateSemanticHash` keeps repeated words; on the first content the
source hash also differs from the hash of the deduplicated set. -/
theorem c2_counterexample :
    (contentWords "aaaa aaaa bbbb cccc".data).dedup
        = (contentWords "aaaa bbbb cccc".data).dedup
    ∧ generateSemanticHash "aaaa aaaa bbbb cccc".data
        ≠ specSemanticHashDedup "aaaa aaaa bbbb cccc".data
    ∧ generateSemanticHash "aaaa aaaa bbbb cccc".data
        ≠ generateSemanticHash "aaaa bbbb cccc".data := by
  exact ⟨by decide, by decide, by decide⟩

/-- C2, amended: the semantic hash equals the hash of the space-joined first
ten elements of the sorted word list with repetitions retained (the source
does not deduplicate); consequently two contents whose over-3-character word
lists agree as multisets receive the same semantic hash. -/
theorem c2_amended (c1 c2 : Str)
    (h : (contentWords c1).Perm (contentWords c2)) :
    generateSemanticHash c1 = generateSemanticHash c2 := by
  unfold generateSemanticHash
  have hsort : List.insertionSort lexLe (contentWords c1)
      = List.insertionSort lexLe (contentWords c2) :=
    List.eq_of_perm_of_sorted
      ((List.perm_insertionSort lexLe _).trans
        (h.trans (List.perm_insertionSort lexLe _).symm))
      (List.sorted_insertionSort lexLe _)
      (List.sorted_insertionSort lexLe _)
  rw [hsort]

/-- Witness for `c2_amended` at a concrete permuted pair. -/
theorem c2_amended_witness :
    (contentWords "delta gamma alpha".data).Perm
      (contentWords "gamma alpha delta".data)
    ∧ generateSemanticHash "delta gamma alpha".data
        = generateSemanticHash "gamma alpha delta".data :=
  ⟨by decide, c2_amended _ _ (by decide)⟩

end Dedup

/-! ## Embeddings client (src/rag/embeddings.ts) -/

namespace Embed

/-- `EmbeddingsClient.normalizeText`: lowercase, collapse whitespace,
replace non-word punctuation by spaces, trim, truncate to 8000 characters.
The collapse happens before the punctuation replace, so the result may
contain repeated spaces. -/
def normalizeText (text : Str) : Str :=
  (trimStr (stripNonWord (collapseWs (toLowerStr text)))).take 8000

/-- `EmbeddingsClient.generateCacheKey`: decimal rendering of the 32-bit
hash of the normalized text. -/
def generateCacheKey (text : Str) : Str := intToRadix 10 (jsHash text)

/-- The embedding cache `embeddingCache`: cache key to embedding vector,
kept in insertion order. -/
abbrev Cache := List (Str × List ℚ)

/-- `EmbeddingsClient.maxCacheSize`. -/
def maxCacheSize : ℕ := 1000

/-- `EmbeddingsClient.generateEmbedding` as a state transition on the
cache.  The external embedding service is the oracle `svc`; `svc`
returning `none` models a request failure (rethrown by the catch branch)
and an empty vector models an invalid response.  Errors surface as
`Except.error`, in which case no cache entry has been written. -/
def generateEmbedding (svc : Str → Option (List ℚ)) (cache : Cache)
    (text : Str) : Except String (List ℚ × Cache) :=
  let normalizedText := normalizeText text
  if (trimStr normalizedText).length = 0 then
    .error "empty text provided for embedding generation"
  else
    let cacheKey := generateCacheKey normalizedText
    match mapGet cache cacheKey with
    | some v => .ok (v, cache)
    | none =>
      match svc normalizedText with
      | none => .error "Embedding generation failed"
      | some embedding =>
        if embedding.length = 0 then .error "invalid embedding response"
        else
          let cache1 :=
            if maxCacheSize ≤ cache.length then cache.tail else cache
          .ok (embedding, cache1 ++ [(cacheKey, embedding)])

/-- C4: the embedding cache is bounded at 1000 entries and eviction is
strictly oldest-inserted-first.  From any cache within capacity: after any
`generateEmbedding` call the cache is still within capacity; a cache hit
returns the stored vector and leaves the cache unchanged, so reads never
affect which entry is evicted next; and a successful insertion into a full
cache removes exactly the head of the insertion-ordered list — the entry
inserted earliest among those present — before appending the new entry. -/
theorem c4_embedding_cache_fifo (svc : Str → Option (List ℚ)) (cache : Cache)
    (text : Str) (hcap : cache.length ≤ maxCacheSize) :
    (∀ v c2, generateEmbedding svc cache text = .ok (v, c2) →
        c2.length ≤ maxCacheSize)
    ∧ (∀ v, mapGet cache (generateCacheKey (normalizeText text)) = some v →
        (trimStr (normalizeText text)).length ≠ 0 →
        generateEmbedding svc cache text = .ok (v, cache))
    ∧ (cache.length = maxCacheSize →
        mapGet cache (generateCacheKey (normalizeText text)) = none →
        ∀ v c2, generateEmbedding svc cache text = .ok (v, c2) →
        c2 = cache.tail ++ [(generateCacheKey (normalizeText text), v)]) := by
  refine ⟨?_, ?_, ?_⟩
  · intro v c2 h
    simp only [generateEmbedding] at h
    split at h
    · exact absurd h (by simp)
    · split at h
      · rw [Except.ok.injEq, Prod.mk.injEq] at h
        rw [← h.2]
        exact hcap
      · split at h
        · exact absurd h (by simp)
        · split at h
          · exact absurd h (by simp)
          · rw [Except.ok.injEq, Prod.mk.injEq] at h
            rw [← h.2]
            by_cases hfull : maxCacheSize ≤ cache.length
            · have hlen : cache.length = maxCacheSize := le_antisymm hcap hfull
              rw [if_pos hfull, List.length_append, List.length_tail, hlen]
              simp [maxCacheSize]
            · rw [if_neg hfull, List.length_append]
              simp only [List.length_singleton]
              omega
  · intro v hv hne
    simp only [generateEmbedding, hne, if_false, hv]
  · intro hfull hmiss v c2 h
    simp only [generateEmbedding, hmiss] at h
    split at h
    · exact absurd h (by simp)
    · split at h
      · exact absurd h (by simp)
      · split at h
        · exact absurd h (by simp)
        · rw [Except.ok.injEq, Prod.mk.injEq] at h
          rw [← h.2, ← h.1]
          rw [if_pos (le_of_eq hfull.symm)]

end Embed

/-- Witness for `c4_embedding_cache_fifo`: the empty cache is within
capacity, and the theorem then applies to a concrete call. -/
theorem c4_embedding_cache_fifo_witness :
    ([] : Embed.Cache).length ≤ Embed.maxCacheSize
    ∧ ((∀ v c2, Embed.generateEmbedding (fun _ => some [1]) []
          "hello world".data = .ok (v, c2) → c2.length ≤ Embed.maxCacheSize)
      ∧ (∀ v, mapGet ([] : Embed.Cache)
            (Embed.generateCacheKey (Embed.normalizeText "hello world".data))
              = some v →
          (trimStr (Embed.normalizeText "hello world".data)).length ≠ 0 →
          Embed.generateEmbedding (fun _ => some [1]) [] "hello world".data
            = .ok (v, []))
      ∧ (([] : Embed.Cache).length = Embed.maxCacheSize →
          mapGet ([] : Embed.Cache)
            (Embed.generateCacheKey (Embed.normalizeText "hello world".data))
              = none →
          ∀ v c2, Embed.generateEmbedding (fun _ => some [1]) []
            "hello world".data = .ok (v, c2) →
          c2 = ([] : Embed.Cache).tail
            ++ [(Embed.generateCacheKey (Embed.normalizeText "hello world".data), v)])) :=
  ⟨by decide,
    Embed.c4_embedding_cache_fifo (fun _ => some [1]) [] "hello world".data
      (by decide)⟩

/-! ## Shared data model (src/rag/semantic.ts) -/

/-- A metadata value: the JSON scalar fragment this subsystem stores. -/
inductive MetaVal
  | str (s : String)
  | num (q : ℚ)
  | bool (b : Bool)
deriving DecidableEq

/-- `SemanticContext.contextType`. -/
inductive CtxType
  | query_result
  | subtask_result
  | decomposition
  | synthesis
  | user_input
deriving DecidableEq

/-- `SemanticContext`: embeddings and confidences are exact rationals,
timestamps are epoch milliseconds.  `relevanceScore` is computed per query
over `ℝ` and never persisted by the operations modelled here. -/
structure SemanticContext where
  id : String
  content : Str
  embedding : List ℚ
  semanticHash : Str
  confidence : ℚ
  contextType : CtxType
  metadata : List (String × MetaVal)
  timestamp : ℤ
  relevanceScore : Option ℝ := none

/-- Dot product of the `calculateCosineSimilarity` loop (the source throws
on length mismatch; every use in this development pairs equal-length
vectors, over which the zip agrees with the indexed loop). -/
def dotProduct (a b : List ℚ) : ℚ :=
  (a.zip b).foldl (fun s p => s + p.1 * p.2) 0

/-- Sum of squares accumulated by the same loop. -/
def sumSquares (a : List ℚ) : ℚ :=
  a.foldl (fun s x => s + x * x) 0

open Classical in
/-- `EmbeddingsClient.calculateCosineSimilarity`: dot product over the
product of the square-root norms, `0` when either norm is zero. -/
noncomputable def cosineSimilarity (a b : List ℚ) : ℝ :=
  let normA : ℝ := Real.sqrt ((sumSquares a : ℚ) : ℝ)
  let normB : ℝ := Real.sqrt ((sumSquares b : ℚ) : ℝ)
  if normA = 0 ∨ normB = 0 then 0
  else ((dotProduct a b : ℚ) : ℝ) / (normA * normB)

theorem foldl_add_sq_ge (a : List ℚ) :
    ∀ s : ℚ, s ≤ a.foldl (fun s x => s + x * x) s := by
  induction a with
  | nil => intro s; exact le_refl s
  | cons x t ih =>
    intro s
    calc s ≤ s + x * x := le_add_of_nonneg_right (mul_self_nonneg x)
    _ ≤ t.foldl (fun s x => s + x * x) (s + x * x) := ih _

theorem sumSquares_nonneg (a : List ℚ) : 0 ≤ sumSquares a :=
  foldl_add_sq_ge a 0

theorem dotProduct_self (a : List ℚ) : dotProduct a a = sumSquares a := by
  unfold dotProduct sumSquares
  have : ∀ s : ℚ, ((a.zip a).foldl (fun s p => s + p.1 * p.2) s)
      = a.foldl (fun s x => s + x * x) s := by
    induction a with
    | nil => intro s; rfl
    | cons x t ih => intro s; simpa [List.zip] using ih (s + x * x)
  exact this 0

/-- Cosine similarity of a vector with itself is `1` whenever the vector
has a nonzero norm. -/
theorem cosineSimilarity_self (a : List ℚ) (h : sumSquares a ≠ 0) :
    cosineSimilarity a a = 1 := by
  have hpos : (0 : ℝ) < ((sumSquares a : ℚ) : ℝ) := by
    have := sumSquares_nonneg a
    have : (0 : ℚ) < sumSquares a := lt_of_le_of_ne this (Ne.symm h)
    exact_mod_cast this
  have hsq : Real.sqrt ((sumSquares a : ℚ) : ℝ) ≠ 0 :=
    ne_of_gt (Real.sqrt_pos.mpr hpos)
  unfold cosineSimilarity
  rw [if_neg (by push_neg; exact ⟨hsq, hsq⟩)]
  rw [dotProduct_self, Real.mul_self_sqrt (le_of_lt hpos)]
  exact div_self (ne_of_gt hpos)

/-! ## Context ranker (src/rag/context-rank.ts) -/

namespace CtxRank

/-- `FilterRule.params`: the fields the rule evaluators read.  Absent
fields are `none`. -/
structure RuleParams where
  minThreshold : Option ℚ := none
  weight : Option ℚ := none
  maxAge : Option ℤ := none
  typeWeights : Option (List (CtxType × ℚ)) := none
  requirements : List (String × MetaVal) := []
  minMatchRatio : Option ℚ := none

/-- `params.x || default`: JavaScript or-fallback, which also replaces an
explicit `0`. -/
def orDefault (v : Option ℚ) (d : ℚ) : ℚ :=
  match v with
  | none => d
  | some q => if q = 0 then d else q

/-- `FilterRule.type`. -/
inductive RuleType
  | similarity
  | confidence
  | age
  | contextType
  | metadata
  | crossReference

/-- `FilterRule`. -/
structure FilterRule where
  type : RuleType
  params : RuleParams
  weight : ℚ

/-- `ContextRank.evaluateSimilarityRule`. -/
noncomputable def evaluateSimilarityRule (queryEmbedding : List ℚ)
    (ctx : SemanticContext) (params : RuleParams) : Prop × ℝ :=
  let similarity := cosineSimilarity queryEmbedding ctx.embedding
  (((orDefault params.minThreshold (1/2) : ℚ) : ℝ) ≤ similarity,
    similarity * ((orDefault params.weight 1 : ℚ) : ℝ))

/-- `ContextRank.evaluateConfidenceRule`. -/
def evaluateConfidenceRule (ctx : SemanticContext) (params : RuleParams) :
    Prop × ℝ :=
  (orDefault params.minThreshold (1/2) ≤ ctx.confidence,
    ((ctx.confidence * orDefault params.weight 1 : ℚ) : ℝ))

/-- `ContextRank.evaluateAgeRule`: passes iff `age ≤ maxAge` (default 30
minutes, read with the nullish operator), score
`exp(-(age/maxAge)·2) · (params.weight || 1)`.  The source divides
floating-point numbers; the model divides in `ℝ`, which agrees except for
`maxAge = 0`, excluded by hypothesis wherever the formula is asserted. -/
noncomputable def evaluateAgeRule (now : ℤ) (ctx : SemanticContext)
    (params : RuleParams) : Prop × ℝ :=
  let age : ℤ := now - ctx.timestamp
  let maxAge : ℤ := params.maxAge.getD (30 * 60 * 1000)
  let normalizedAge : ℝ := (age : ℝ) / (maxAge : ℝ)
  (age ≤ maxAge,
    Real.exp (-normalizedAge * 2) * ((orDefault params.weight 1 : ℚ) : ℝ))

/-- The default `typeWeights` table of `evaluateContextTypeRule`. -/
def defaultTypeWeights : List (CtxType × ℚ) :=
  [(.query_result, 1), (.subtask_result, 9/10), (.synthesis, 8/10),
   (.decomposition, 7/10), (.user_input, 6/10)]

/-- `ContextRank.evaluateContextTypeRule`: the type score falls back to
`0.5` when the type is missing from the table (or mapped to `0`). -/
def evaluateContextTypeRule (ctx : SemanticContext) (params : RuleParams) :
    Prop × ℝ :=
  let tw := params.typeWeights.getD defaultTypeWeights
  let typeScore := orDefault (mapGet tw ctx.contextType) (1/2)
  (0 < typeScore, ((typeScore * orDefault params.weight 1 : ℚ) : ℝ))

/-- `ContextRank.evaluateMetadataRule`. -/
def evaluateMetadataRule (ctx : SemanticContext) (params : RuleParams) :
    Prop × ℝ :=
  let totalChecks := params.requirements.length
  let matchCount :=
    (params.requirements.filter
      (fun kv => mapGet ctx.metadata kv.1 = some kv.2)).length
  let passes : Prop := totalChecks = 0 ∨
    orDefault params.minMatchRatio (1/2) ≤ (matchCount : ℚ) / totalChecks
  let normalizedScore : ℚ :=
    if 0 < totalChecks then
      ((matchCount : ℚ) / totalChecks) * orDefault params.weight 1
    else 0
  (passes, (normalizedScore : ℝ))

open Classical in
/-- `ContextRank.evaluateCrossReferenceRule`: the fraction of other batch
members with similarity above `0.7`, capped at `1`. -/
noncomputable def evaluateCrossReferenceRule (ctx : SemanticContext)
    (params : RuleParams) (allContexts : List SemanticContext) : Prop × ℝ :=
  let others := allContexts.filter (fun c => c.id ≠ ctx.id)
  let crossReferences :=
    (others.filter
      (fun c => (0.7 : ℝ) < cosineSimilarity ctx.embedding c.embedding)).length
  (True,
    min ((crossReferences : ℝ) / 3) 1 * ((orDefault params.weight 1 : ℚ) : ℝ))

/-- `ContextRank.evaluateRule` dispatch. -/
noncomputable def evaluateRule (now : ℤ) (queryEmbedding : List ℚ)
    (allContexts : List SemanticContext) (ctx : SemanticContext)
    (rule : FilterRule) : Prop × ℝ :=
  match rule.type with
  | .similarity => evaluateSimilarityRule queryEmbedding ctx rule.params
  | .confidence => evaluateConfidenceRule ctx rule.params
  | .age => evaluateAgeRule now ctx rule.params
  | .contextType => evaluateContextTypeRule ctx rule.params
  | .metadata => evaluateMetadataRule ctx rule.params
  | .crossReference => evaluateCrossReferenceRule ctx rule.params allContexts

open Classical in
/-- The per-context loop of `ContextRank.applyStrategyFiltering`: passing
rules add `score · weight` to the aggregate; a failing rule with weight
above `0.3` excludes the candidate (`none`); a failing soft rule adds
nothing. -/
noncomputable def runRules (now : ℤ) (queryEmbedding : List ℚ)
    (allContexts : List SemanticContext) (ctx : SemanticContext) :
    List FilterRule → Option ℝ
  | [] => some 0
  | rule :: rest =>
    let res := evaluateRule now queryEmbedding allContexts ctx rule
    if res.1 then
      (runRules now queryEmbedding allContexts ctx rest).map
        (fun s => s + res.2 * (rule.weight : ℝ))
    else if (3/10 : ℚ) < rule.weight then none
    else runRules now queryEmbedding allContexts ctx rest

/-- `ContextRank.applyStrategyFiltering`: candidates surviving their rule
run are kept, in order, with `relevanceScore` set to the aggregate. -/
noncomputable def applyStrategyFiltering (now : ℤ) (queryEmbedding : List ℚ)
    (contexts : List SemanticContext) (rules : List FilterRule) :
    List SemanticContext :=
  contexts.filterMap (fun ctx =>
    (runRules now queryEmbedding contexts ctx rules).map
      (fun s => { ctx with relevanceScore := some s }))

end CtxRank

namespace CtxRank

/-- A preset-style age rule: `maxAge` 20 minutes with the weight `0.2`
recorded both inside `params` and on the rule, exactly as every predefined
strategy of `initializePredefinedStrategies` does. -/
def presetAgeParams : RuleParams :=
  { maxAge := some (20 * 60 * 1000), weight := some (2/10) }

/-- The corresponding `FilterRule`. -/
def presetAgeRule : FilterRule :=
  { type := .age, params := presetAgeParams, weight := 2/10 }

/-- A zero-age candidate context. -/
def freshCtx : SemanticContext :=
  { id := "c0", content := [], embedding := [], semanticHash := [],
    confidence := 1, contextType := .query_result, metadata := [],
    timestamp := 0 }

/-- C3, counterexample: on a zero-age candidate under the preset-style age
rule (maxAge 20 minutes, params.weight = rule weight = 0.2), the score the
source computes is `0.2`, not `exp(-2·age/maxAge) = 1` as the claim states,
because `evaluateAgeRule` multiplies the exponential by `params.weight`;
and the aggregate contribution is `0.04 = score · weight`, not
`exp(-2·age/maxAge) · weight = 0.2`. -/
theorem c3_counterexample :
    (evaluateAgeRule 0 freshCtx presetAgeParams).2
        ≠ Real.exp (-2 * (((0 : ℤ) : ℝ) / ((20 * 60 * 1000 : ℤ) : ℝ)))
    ∧ runRules 0 [] [freshCtx] freshCtx [presetAgeRule]
        = some ((1/25 : ℚ) : ℝ)
    ∧ ((1/25 : ℚ) : ℝ)
        ≠ Real.exp (-2 * (((0 : ℤ) : ℝ) / ((20 * 60 * 1000 : ℤ) : ℝ)))
            * ((2/10 : ℚ) : ℝ) := by
  have hscore : (evaluateAgeRule 0 freshCtx presetAgeParams).2 = ((2/10 : ℚ) : ℝ) := by
    simp only [evaluateAgeRule, presetAgeParams, freshCtx, orDefault]
    norm_num [Real.exp_zero]
  refine ⟨?_, ?_, ?_⟩
  · rw [hscore]
    norm_num [Real.exp_zero]
  · have hpass : (evaluateAgeRule 0 freshCtx presetAgeParams).1 := by
      simp only [evaluateAgeRule, presetAgeParams, freshCtx, Option.getD]
      norm_num
    simp only [runRules, evaluateRule, presetAgeRule]
    rw [if_pos hpass]
    simp only [runRules, Option.map_some, hscore]
    norm_num
  · norm_num [Real.exp_zero]

/-- C3, amended: under an age rule whose `params` carry `maxAge = M ≠ 0`,
the rule passes iff `age ≤ M`; its score is
`exp(-(age/M)·2) · pw` where `pw` is `params.weight` with the JavaScript
or-fallback to `1` (so for the presets, which repeat the rule weight `w`
inside `params`, the score is `exp(-2·age/M)·w`); and when the rule passes
it contributes exactly `score · w` to the aggregate of
`applyStrategyFiltering`, where `w` is the rule weight. -/
theorem c3_amended (now : ℤ) (ctx : SemanticContext) (p : RuleParams)
    (w : ℚ) (M : ℤ) (hM : p.maxAge = some M) (_hM0 : M ≠ 0) :
    ((evaluateAgeRule now ctx p).1 ↔ now - ctx.timestamp ≤ M)
    ∧ (evaluateAgeRule now ctx p).2
        = Real.exp (-(((now - ctx.timestamp : ℤ) : ℝ) / (M : ℝ)) * 2)
            * ((orDefault p.weight 1 : ℚ) : ℝ)
    ∧ (∀ qe allCtxs rest, now - ctx.timestamp ≤ M →
        runRules now qe allCtxs ctx
            ({ type := .age, params := p, weight := w } :: rest)
          = (runRules now qe allCtxs ctx rest).map
              (fun s => s + (evaluateAgeRule now ctx p).2 * (w : ℝ))) := by
  refine ⟨?_, ?_, ?_⟩
  · simp [evaluateAgeRule, hM]
  · simp [evaluateAgeRule, hM]
  · intro qe allCtxs rest hage
    have hpass : (evaluateAgeRule now ctx p).1 := by
      simpa [evaluateAgeRule, hM] using hage
    simp only [runRules, evaluateRule]
    rw [if_pos hpass]

end CtxRank

/-- Witness for `c3_amended`: a concrete age rule with `maxAge = 10`
milliseconds and no `params.weight`, evaluated five milliseconds after the
candidate timestamp. -/
theorem c3_amended_witness :
    ({ maxAge := some 10 } : CtxRank.RuleParams).maxAge = some 10
    ∧ (10 : ℤ) ≠ 0
    ∧ (((CtxRank.evaluateAgeRule 5 CtxRank.freshCtx { maxAge := some 10 }).1
          ↔ 5 - CtxRank.freshCtx.timestamp ≤ 10)
      ∧ (CtxRank.evaluateAgeRule 5 CtxRank.freshCtx { maxAge := some 10 }).2
          = Real.exp (-(((5 - CtxRank.freshCtx.timestamp : ℤ) : ℝ) / ((10 : ℤ) : ℝ)) * 2)
              * ((CtxRank.orDefault ({ maxAge := some 10 } : CtxRank.RuleParams).weight 1 : ℚ) : ℝ)
      ∧ (∀ qe allCtxs rest, 5 - CtxRank.freshCtx.timestamp ≤ 10 →
          CtxRank.runRules 5 qe allCtxs CtxRank.freshCtx
              ({ type := .age, params := { maxAge := some 10 }, weight := 1/4 } :: rest)
            = (CtxRank.runRules 5 qe allCtxs CtxRank.freshCtx rest).map
                (fun s => s
                  + (CtxRank.evaluateAgeRule 5 CtxRank.freshCtx { maxAge := some 10 }).2
                      * ((1/4 : ℚ) : ℝ)))) :=
  ⟨rfl, by decide,
    CtxRank.c3_amended 5 CtxRank.freshCtx { maxAge := some 10 } (1/4) 10 rfl (by decide)⟩

/-! ## Hybrid search engine (src/rag/rag.ts) -/

namespace Hybrid

/-- A chunked document as the hybrid search sees it: its text and the
optional `metadata.id`. -/
structure HDoc where
  pageContent : Str
  metaId : Option Str
deriving DecidableEq

/-- `RAGModule.getDocumentId`: `metadata.id ?? pageContent.slice(0, 50)`. -/
def getDocumentId (d : HDoc) : Str := d.metaId.getD (d.pageContent.take 50)

/-- `HybridSearchResult`. -/
structure HybridSearchResult where
  document : HDoc
  vectorScore : ℚ
  bm25Score : ℚ
  combinedScore : ℚ
deriving DecidableEq

/-- `combinedResults.set(docId, ...)` keyed by document identity. -/
def setByDocId (m : List HybridSearchResult) (r : HybridSearchResult) :
    List HybridSearchResult :=
  match m with
  | [] => [r]
  | e :: t =>
    if getDocumentId e.document = getDocumentId r.document then r :: t
    else e :: setByDocId t r

/-- Whether the fused map already holds an entry for the key. -/
def hasDocId (m : List HybridSearchResult) (k : Str) : Bool :=
  m.any (fun e => getDocumentId e.document = k)

/-- `existing.bm25Score = bm25Result.score`: mutate the stored entry in
place, keeping its position. -/
def updateBm25 (m : List HybridSearchResult) (k : Str) (score : ℚ) :
    List HybridSearchResult :=
  match m with
  | [] => []
  | e :: t =>
    if getDocumentId e.document = k then { e with bm25Score := score } :: t
    else e :: updateBm25 t k score

/-- One step of the first union pass: a vector result is `set` into the
map with BM25 score `0`. -/
def vecStep (m : List HybridSearchResult) (vr : HDoc × ℚ) :
    List HybridSearchResult :=
  setByDocId m
    { document := vr.1, vectorScore := vr.2, bm25Score := 0, combinedScore := 0 }

/-- One step of the second union pass: a BM25 result updates the matching
entry in place or is appended with vector score `0`. -/
def bm25Step (m : List HybridSearchResult) (br : HDoc × ℚ) :
    List HybridSearchResult :=
  if hasDocId m (getDocumentId br.1) then
    updateBm25 m (getDocumentId br.1) br.2
  else
    m ++ [{ document := br.1, vectorScore := 0, bm25Score := br.2, combinedScore := 0 }]

/-- The two union passes of `performHybridSearch`. -/
def fuse (vectorResults bm25Results : List (HDoc × ℚ)) :
    List HybridSearchResult :=
  bm25Results.foldl bm25Step (vectorResults.foldl vecStep [])

/-- The normalization pass: `combinedScore = vectorScore·vectorWeight +
bm25Score·bm25Weight`. -/
def combineScores (vectorWeight bm25Weight : ℚ)
    (m : List HybridSearchResult) : List HybridSearchResult :=
  m.map (fun r =>
    { r with combinedScore :=
        r.vectorScore * vectorWeight + r.bm25Score * bm25Weight })

/-- The comparator `(a, b) => b.combinedScore - a.combinedScore`:
descending combined score. -/
def combinedDesc (a b : HybridSearchResult) : Prop :=
  b.combinedScore ≤ a.combinedScore

instance : DecidableRel combinedDesc := fun a b => by
  unfold combinedDesc; infer_instance

instance : IsTotal HybridSearchResult combinedDesc :=
  ⟨fun a b => le_total b.combinedScore a.combinedScore⟩

instance : IsTrans HybridSearchResult combinedDesc :=
  ⟨fun _ _ _ h1 h2 => le_trans h2 h1⟩

/-- `RAGModule.performHybridSearch` acting on the two rankers' outputs:
fuse by document id, score, sort descending, truncate to
`rerankTopK ?? topK * 2`. -/
def performHybridSearch (vectorWeight bm25Weight : ℚ)
    (rerankTopK : Option ℕ) (topK : ℕ)
    (vectorResults bm25Results : List (HDoc × ℚ)) :
    List HybridSearchResult :=
  (List.insertionSort combinedDesc
      (combineScores vectorWeight bm25Weight
        (fuse vectorResults bm25Results))).take
    (rerankTopK.getD (topK * 2))

theorem mem_setByDocId (r : HybridSearchResult) :
    ∀ m, ∀ e ∈ setByDocId m r, e ∈ m ∨ e = r := by
  intro m
  induction m with
  | nil =>
    intro e he
    simp only [setByDocId, List.mem_singleton] at he
    exact Or.inr he
  | cons x t ih =>
    intro e he
    simp only [setByDocId] at he
    split at he
    · rcases List.mem_cons.mp he with h | h
      · exact Or.inr h
      · exact Or.inl (List.mem_cons_of_mem x h)
    · rcases List.mem_cons.mp he with h | h
      · exact Or.inl (h ▸ List.mem_cons_self x t)
      · rcases ih e h with h2 | h2
        · exact Or.inl (List.mem_cons_of_mem x h2)
        · exact Or.inr h2

theorem mem_updateBm25 (k : Str) (s : ℚ) :
    ∀ m, ∀ e ∈ updateBm25 m k s, e ∈ m ∨
      ∃ o ∈ m, e = { o with bm25Score := s } ∧ getDocumentId o.document = k := by
  intro m
  induction m with
  | nil => intro e he; simp [updateBm25] at he
  | cons x t ih =>
    intro e he
    simp only [updateBm25] at he
    split at he
    · rcases List.mem_cons.mp he with h | h
      · exact Or.inr ⟨x, List.mem_cons_self x t, h, by assumption⟩
      · exact Or.inl (List.mem_cons_of_mem x h)
    · rcases List.mem_cons.mp he with h | h
      · exact Or.inl (h ▸ List.mem_cons_self x t)
      · rcases ih e h with h2 | ⟨o, ho, h2⟩
        · exact Or.inl (List.mem_cons_of_mem x h2)
        · exact Or.inr ⟨o, List.mem_cons_of_mem x ho, h2⟩

/-- Provenance facts about an entry of the fused map: a nonzero vector
score can only come from a vector result with the same document id, and
symmetrically for BM25. -/
theorem fuse_provenance (vectorResults bm25Results : List (HDoc × ℚ)) :
    ∀ e ∈ fuse vectorResults bm25Results,
      (e.vectorScore = 0 ∨
        ∃ p ∈ vectorResults, getDocumentId p.1 = getDocumentId e.document)
      ∧ (e.bm25Score = 0 ∨
        ∃ p ∈ bm25Results, getDocumentId p.1 = getDocumentId e.document) := by
  unfold fuse
  have hvec : ∀ (l : List (HDoc × ℚ)) (m : List HybridSearchResult),
      (∀ e ∈ m,
        (e.vectorScore = 0 ∨
          ∃ p ∈ vectorResults, getDocumentId p.1 = getDocumentId e.document)
        ∧ e.bm25Score = 0) →
      (∀ p ∈ l, p ∈ vectorResults) →
      ∀ e ∈ l.foldl vecStep m,
        (e.vectorScore = 0 ∨
          ∃ p ∈ vectorResults, getDocumentId p.1 = getDocumentId e.document)
        ∧ e.bm25Score = 0 := by
    intro l
    induction l with
    | nil => intro m hm _ e he; exact hm e he
    | cons vr t ih =>
      intro m hm hsub e he
      refine ih _ ?_ (fun p hp => hsub p (List.mem_cons_of_mem vr hp)) e he
      intro x hx
      rcases mem_setByDocId _ m x hx with h | h
      · exact hm x h
      · subst h
        exact ⟨Or.inr ⟨vr, hsub vr (List.mem_cons_self vr t), rfl⟩, rfl⟩
  have hbase := hvec vectorResults [] (by simp) (fun p hp => hp)
  have hbm : ∀ (l : List (HDoc × ℚ)) (m : List HybridSearchResult),
      (∀ e ∈ m,
        (e.vectorScore = 0 ∨
          ∃ p ∈ vectorResults, getDocumentId p.1 = getDocumentId e.document)
        ∧ (e.bm25Score = 0 ∨
          ∃ p ∈ bm25Results, getDocumentId p.1 = getDocumentId e.document)) →
      (∀ p ∈ l, p ∈ bm25Results) →
      ∀ e ∈ l.foldl bm25Step m,
        (e.vectorScore = 0 ∨
          ∃ p ∈ vectorResults, getDocumentId p.1 = getDocumentId e.document)
        ∧ (e.bm25Score = 0 ∨
          ∃ p ∈ bm25Results, getDocumentId p.1 = getDocumentId e.document) := by
    intro l
    induction l with
    | nil => intro m hm _ e he; exact hm e he
    | cons br t ih =>
      intro m hm hsub e he
      refine ih _ ?_ (fun p hp => hsub p (List.mem_cons_of_mem br hp)) e he
      intro x hx
      unfold bm25Step at hx
      split at hx
      · rcases mem_updateBm25 _ _ m x hx with h | ⟨o, ho, hxo, hk⟩
        · exact hm x h
        · subst hxo
          exact ⟨(hm o ho).1,
            Or.inr ⟨br, hsub br (List.mem_cons_self br t), hk.symm⟩⟩
      · rcases List.mem_append.mp hx with h | h
        · exact hm x h
        · rcases List.mem_singleton.mp h with rfl
          exact ⟨Or.inl rfl,
            Or.inr ⟨br, hsub br (List.mem_cons_self br t), rfl⟩⟩
  exact hbm bm25Results _
    (fun e he => ⟨(hbase e he).1, Or.inl (hbase e he).2⟩) (fun p hp => hp)

/-- C8: every candidate in the fused, truncated output carries
`combinedScore = vectorScore·vectorWeight + bm25Score·bm25Weight` exactly;
a candidate whose document id was returned by only one ranker has score
`0` for the other ranker; the output is ordered by descending combined
score and truncated to `rerankTopK ?? topK·2`. -/
theorem c8_fusion_formula (vectorWeight bm25Weight : ℚ)
    (rerankTopK : Option ℕ) (topK : ℕ)
    (vectorResults bm25Results : List (HDoc × ℚ)) :
    (∀ r ∈ performHybridSearch vectorWeight bm25Weight rerankTopK topK
        vectorResults bm25Results,
      r.combinedScore
          = r.vectorScore * vectorWeight + r.bm25Score * bm25Weight
      ∧ ((¬∃ p ∈ vectorResults,
            getDocumentId p.1 = getDocumentId r.document) →
          r.vectorScore = 0)
      ∧ ((¬∃ p ∈ bm25Results,
            getDocumentId p.1 = getDocumentId r.document) →
          r.bm25Score = 0))
    ∧ List.Sorted combinedDesc
        (performHybridSearch vectorWeight bm25Weight rerankTopK topK
          vectorResults bm25Results)
    ∧ (performHybridSearch vectorWeight bm25Weight rerankTopK topK
        vectorResults bm25Results).length ≤ rerankTopK.getD (topK * 2) := by
  refine ⟨?_, ?_, ?_⟩
  · intro r hr
    have hr2 : r ∈ List.insertionSort combinedDesc
        (combineScores vectorWeight bm25Weight
          (fuse vectorResults bm25Results)) :=
      List.mem_of_mem_take hr
    have hr3 : r ∈ combineScores vectorWeight bm25Weight
        (fuse vectorResults bm25Results) :=
      (List.perm_insertionSort combinedDesc _).mem_iff.mp hr2
    rcases List.mem_map.mp hr3 with ⟨e, he, rfl⟩
    have hp := fuse_provenance vectorResults bm25Results e he
    refine ⟨rfl, ?_, ?_⟩
    · intro hno
      rcases hp.1 with h | h
      · exact h
      · exact absurd h hno
    · intro hno
      rcases hp.2 with h | h
      · exact h
      · exact absurd h hno
  · exact ((List.sorted_insertionSort combinedDesc _).sublist
      (List.take_sublist _ _))
  · exact List.length_take_le _ _

end Hybrid

/-- Witness for `c8_fusion_formula` at concrete ranker outputs: one shared
document, one vector-only and one BM25-only document. -/
theorem c8_fusion_formula_witness :
    ∀ r ∈ Hybrid.performHybridSearch (6/10) (4/10) none 5
        [(⟨"shared doc".data, none⟩, 9/10), (⟨"vector only".data, none⟩, 8/10)]
        [(⟨"shared doc".data, none⟩, 3/2), (⟨"bm25 only".data, none⟩, 1/2)],
      r.combinedScore = r.vectorScore * (6/10) + r.bm25Score * (4/10)
      ∧ ((¬∃ p ∈ [((⟨"shared doc".data, none⟩ : Hybrid.HDoc), (9/10 : ℚ)),
            (⟨"vector only".data, none⟩, 8/10)],
          Hybrid.getDocumentId p.1 = Hybrid.getDocumentId r.document) →
          r.vectorScore = 0)
      ∧ ((¬∃ p ∈ [((⟨"shared doc".data, none⟩ : Hybrid.HDoc), (3/2 : ℚ)),
            (⟨"bm25 only".data, none⟩, 1/2)],
          Hybrid.getDocumentId p.1 = Hybrid.getDocumentId r.document) →
          r.bm25Score = 0) :=
  (Hybrid.c8_fusion_formula (6/10) (4/10) none 5
    [(⟨"shared doc".data, none⟩, 9/10), (⟨"vector only".data, none⟩, 8/10)]
    [(⟨"shared doc".data, none⟩, 3/2), (⟨"bm25 only".data, none⟩, 1/2)]).1

/-! ## Memory manager (MemoryManager, with `performCleanup`,
`updateMemoryUsage` and `getMemoryStats`) -/

namespace MM

/-- `MemoryConfig`. -/
structure MemoryConfig where
  maxTotalContexts : ℕ
  maxContextsPerChat : ℕ
  maxTotalMemoryMB : ℚ
  cleanupIntervalMs : ℤ
  maxContextAgeDays : ℕ
  compressionThreshold : ℚ
  archivalEnabled : Bool
  persistenceEnabled : Bool

/-- The constructor defaults of `MemoryManager`. -/
def defaultMemoryConfig : MemoryConfig :=
  { maxTotalContexts := 10000
    maxContextsPerChat := 50
    maxTotalMemoryMB := 100
    cleanupIntervalMs := 5 * 60 * 1000
    maxContextAgeDays := 7
    compressionThreshold := 3/10
    archivalEnabled := true
    persistenceEnabled := false }

/-- The mutable fields of `MemoryManager` touched by the operations
modelled here: the stale memory estimate, access tracking and the rolling
performance samples. -/
structure MMState where
  memoryUsage : ℚ
  accessPatterns : List (String × ℤ × ℕ)
  retrievalTimes : List ℤ
  storageTimes : List ℤ
  compressionTimes : List ℤ
  cacheHits : ℕ
  cacheMisses : ℕ

/-- The per-chat collections governed by the manager. -/
abbrev ContextsMap := List (String × List SemanticContext)

/-- JSON string rendering with quote and backslash escaping — the cases
arising for the metadata values this development evaluates. -/
def jsonString (s : Str) : Str :=
  Char.ofNat 34 :: (s.map (fun c =>
    if c = Char.ofNat 34 || c = Char.ofNat 92 then [Char.ofNat 92, c]
    else [c])).flatten ++ [Char.ofNat 34]

/-- Decimal exponent for rendering a nonnegative rational: the least
`k ≤ 17` making `q·10^k` integral, else `17` (JavaScript prints floats
with up to 17 significant digits; no theorem in this file evaluates a
value needing the truncated fallback). -/
def decExp (q : ℚ) : ℕ :=
  (((List.range 18).filter (fun k => (q * 10 ^ k).den = 1)).headD 17)

set_option linter.unusedVariables false in
/-- `JSON.stringify` of a number, for the integer and terminating-decimal
values this subsystem writes. -/
def jsonNum (q : ℚ) : Str :=
  if hneg : q < 0 then '-' :: jsonNum (-q)
  else
    let k := decExp q
    let n := (q * 10 ^ k).floor.natAbs
    let digits := if n = 0 then ['0'] else natToRadixAux 10 64 n
    if k = 0 then digits
    else
      let padded :=
        if digits.length < k + 1 then
          List.replicate (k + 1 - digits.length) '0' ++ digits
        else digits
      padded.take (padded.length - k) ++ '.' :: padded.drop (padded.length - k)
termination_by (if q < 0 then 1 else 0)
decreasing_by
  rw [if_pos hneg, if_neg (not_lt.mpr (le_of_lt (neg_pos.mpr hneg)))]
  exact Nat.zero_lt_one

/-- `JSON.stringify` of one metadata value. -/
def jsonMetaVal : MetaVal → Str
  | .str s => jsonString s.data
  | .num q => jsonNum q
  | .bool b => if b then "true".data else "false".data

/-- `JSON.stringify` of the flat metadata map. -/
def jsonStringifyMeta (m : List (String × MetaVal)) : Str :=
  Char.ofNat 123 ::
    (List.intercalate [','] (m.map (fun kv =>
      jsonString kv.1.data ++ ':' :: jsonMetaVal kv.2))) ++ [Char.ofNat 125]

/-- The per-context size estimate of `updateMemoryUsage`:
`content.length·2 + embedding.length·8 + JSON.stringify(metadata).length·2
+ 200` bytes. -/
def contextSizeBytes (c : SemanticContext) : ℕ :=
  c.content.length * 2 + c.embedding.length * 8
    + (jsonStringifyMeta c.metadata).length * 2 + 200

/-- Size of one chat collection. -/
def chatSizeBytes (l : List SemanticContext) : ℕ :=
  (l.map contextSizeBytes).sum

/-- Total size over all chats. -/
def totalSizeBytes (contexts : ContextsMap) : ℕ :=
  (contexts.map (fun e => chatSizeBytes e.2)).sum

/-- `MemoryManager.updateMemoryUsage`: total bytes over `1024·1024`,
exact in `ℚ` (the JavaScript double arithmetic is exact here: the sums are
integers far below `2^53` and the divisor is a power of two). -/
def computeMemoryUsageMB (contexts : ContextsMap) : ℚ :=
  (totalSizeBytes contexts : ℚ) / (1024 * 1024)

/-- `MemoryManager.shouldCompress`. -/
def shouldCompress (cfg : MemoryConfig) (st : MMState) : Prop :=
  cfg.maxTotalMemoryMB * cfg.compressionThreshold < st.memoryUsage

instance : ∀ cfg st, Decidable (shouldCompress cfg st) := fun cfg st => by
  unfold shouldCompress; infer_instance

/-- The stopword alternation of `compressContent`, in source order (the
regex engine tries the alternatives left to right). -/
def stopwords : List Str :=
  ["the".data, "a".data, "an".data, "and".data, "or".data, "but".data,
   "in".data, "on".data, "at".data, "to".data, "for".data, "of".data,
   "with".data, "by".data]

/-- Case-insensitive prefix test (the stopword regex carries the `i`
flag). -/
def startsWithCI : Str → Str → Bool
  | [], _ => true
  | _ :: _, [] => false
  | a :: w, b :: s => (a.toLower = b.toLower) && startsWithCI w s

/-- Try to match `(stopword)\s+` at the head of `s`, returning the
remainder after the greedy `\s+` when it matches. -/
def matchStop (s : Str) : Option Str :=
  stopwords.findSome? (fun w =>
    if startsWithCI w s then
      let r := s.drop w.length
      match r with
      | [] => none
      | c :: _ => if isSpaceChar c then some (r.dropWhile (isSpaceChar ·)) else none
    else none)

/-- `.replace(/\b(the|a|an|and|or|but|in|on|at|to|for|of|with|by)\s+/gi, "")`:
scan left to right; a match requires a word boundary, i.e. the previous
character is not a word character.  The fuel starts above the string
length, which bounds the number of steps since every step consumes at
least one character. -/
def stripStopAux : ℕ → Bool → Str → Str
  | 0, _, _ => []
  | fuel + 1, prevWord, s =>
    match s with
    | [] => []
    | c :: t =>
      if prevWord then c :: stripStopAux fuel (isWordChar c) t
      else
        match matchStop s with
        | some rest => stripStopAux fuel false rest
        | none => c :: stripStopAux fuel (isWordChar c) t

/-- The stopword pass of `compressContent`. -/
def stripStopwords (s : Str) : Str := stripStopAux (s.length + 1) false s

/-- The characters of the class `[.,;:!?]`. -/
def isTermPunct (c : Char) : Bool :=
  (c = '.' || c = ',' || c = ';' || c = ':' || c = '!' || c = '?')

/-- `.replace(/[.,;:!?]+/g, ".")`: each punctuation run becomes a single
period. -/
def collapsePunctAux : Bool → Str → Str
  | _, [] => []
  | prevP, c :: t =>
    if isTermPunct c then
      (if prevP then collapsePunctAux true t else '.' :: collapsePunctAux true t)
    else c :: collapsePunctAux false t

/-- `MemoryManager.compressContent`: collapse whitespace, drop the
stopwords, normalize terminal punctuation, trim. -/
def compressContent (content : Str) : Str :=
  trimStr (collapsePunctAux false (stripStopwords (collapseWs content)))

/-- The per-context step of `compressOldContexts`: contexts older than
seven days and longer than 200 characters are compressed in place and
tagged in their metadata (property assignment keeps an existing key in
place and appends a fresh one). -/
def compressCtx (sevenDaysAgo : ℤ) (c : SemanticContext) :
    SemanticContext × Bool :=
  if c.timestamp < sevenDaysAgo ∧ 200 < c.content.length then
    let newContent := compressContent c.content
    let ratio : ℚ := (newContent.length : ℚ) / (c.content.length : ℚ)
    ({ c with
        content := newContent,
        metadata :=
          mapSet (mapSet (mapSet c.metadata "compressed" (.bool true))
            "originalLength" (.num c.content.length))
            "compressionRatio" (.num ratio) },
      true)
  else (c, false)

instance : ∀ (d : ℤ) (c : SemanticContext),
    Decidable (c.timestamp < d ∧ 200 < c.content.length) := fun d c => by
  infer_instance

/-- Append a performance sample and keep the last `maxSize`
(`limitArraySize`). -/
def pushLimited (l : List ℤ) (x : ℤ) (maxSize : ℕ) : List ℤ :=
  let l2 := l ++ [x]
  if maxSize < l2.length then l2.drop (l2.length - maxSize) else l2

/-- `MemoryManager.compressOldContexts`: compress the eligible contexts of
every chat and record a compression-time sample (the wall-clock duration is
modelled as zero). -/
def compressOldContexts (now : ℤ) (contexts : ContextsMap) (st : MMState) :
    ContextsMap × MMState :=
  let sevenDaysAgo := now - 7 * 24 * 60 * 60 * 1000
  let contexts2 := contexts.map (fun e =>
    (e.1, e.2.map (fun c => (compressCtx sevenDaysAgo c).1)))
  (contexts2,
    { st with compressionTimes := pushLimited st.compressionTimes 0 100 })

/-- Ascending order on last access time, the comparator of
`removeInactiveContexts`. -/
def accAsc (a b : String × ℤ × ℕ) : Prop := a.2.1 ≤ b.2.1

instance : DecidableRel accAsc := fun a b => by unfold accAsc; infer_instance

/-- `MemoryManager.removeInactiveContexts`: the least recently accessed
fifth of the chats (`Math.ceil(n·0.2)`, exact arithmetic here) keep only
their last five contexts. -/
def removeInactiveContexts (contexts : ContextsMap) (st : MMState) :
    ContextsMap :=
  let chatAccess := List.insertionSort accAsc st.accessPatterns
  let chatsToReduce := (chatAccess.take ((chatAccess.length + 4) / 5)).map
    (fun e => e.1)
  contexts.map (fun e =>
    if chatsToReduce.contains e.1 && decide (5 < e.2.length) then
      (e.1, e.2.drop (e.2.length - 5))
    else e)

/-- The record returned by `performCleanup`. -/
structure CleanupInfo where
  contextsRemoved : ℕ
  chatsRemoved : ℕ
  memoryFreedMB : ℚ

/-- `MemoryManager.performCleanup`: sweep the contexts older than
`maxContextAgeDays` from every chat (deleting emptied chats); then, if the
stale memory estimate exceeds 80% of the ceiling, trim inactive chats; if
it exceeds the compression threshold, compress old contexts.  The returned
`memoryFreedMB` is the difference between the estimate before and after —
the source never recomputes `memoryUsage` inside the pass. -/
def performCleanup (cfg : MemoryConfig) (now : ℤ) (contexts : ContextsMap)
    (st : MMState) : ContextsMap × MMState × CleanupInfo :=
  let initialMemory := st.memoryUsage
  let maxAge : ℤ := cfg.maxContextAgeDays * 24 * 60 * 60 * 1000
  let swept := contexts.map (fun e =>
    (e.1, e.2.filter (fun c => now - c.timestamp < maxAge)))
  let contextsRemoved := (contexts.map (fun e =>
    (e.2.filter (fun c => ¬(now - c.timestamp < maxAge))).length)).sum
  let contexts1 := swept.filter (fun e => e.2.length ≠ 0)
  let chatsRemoved := swept.length - contexts1.length
  let contexts2 :=
    if cfg.maxTotalMemoryMB * (8/10) < st.memoryUsage then
      removeInactiveContexts contexts1 st
    else contexts1
  let afterCompress :=
    if shouldCompress cfg st then compressOldContexts now contexts2 st
    else (contexts2, st)
  (afterCompress.1, afterCompress.2,
    { contextsRemoved := contextsRemoved
      chatsRemoved := chatsRemoved
      memoryFreedMB := initialMemory - afterCompress.2.memoryUsage })

/-- `MemoryStats`, the aggregate report of `getMemoryStats`. -/
structure MemoryStats where
  totalChats : ℕ
  totalContexts : ℕ
  totalMemoryMB : ℚ
  oldestContextAge : ℤ
  newestContextAge : ℤ
  averageContextSize : ℚ
  compressionRatio : ℚ
  cacheHitRate : ℚ
  avgRetrievalTimeMs : ℚ
  avgStorageTimeMs : ℚ
  avgCompressionTimeMs : ℚ

/-- JavaScript truthiness of a metadata value. -/
def isTruthy : Option MetaVal → Bool
  | none => false
  | some (.str s) => s ≠ ""
  | some (.num q) => q ≠ 0
  | some (.bool b) => b

/-- `(metadata.originalLength as number) || 0`, for the numeric values the
source actually writes there. -/
def numOrZero : Option MetaVal → ℚ
  | some (.num q) => q
  | _ => 0

/-- `MemoryManager.calculateCompressionRatio`. -/
def calculateCompressionRatio (contexts : ContextsMap) : ℚ :=
  let compressed := (contexts.map (fun e =>
    e.2.filter (fun c => isTruthy (mapGet c.metadata "compressed")))).flatten
  if 0 < compressed.length then
    ((compressed.map (fun c => (c.content.length : ℚ))).sum) /
      ((compressed.map (fun c => numOrZero (mapGet c.metadata "originalLength"))).sum)
  else 1

/-- Average of a sample list, `0` when empty. -/
def averageOf (l : List ℤ) : ℚ :=
  if l.length = 0 then 0 else ((l.map (fun x => (x : ℚ))).sum) / l.length

/-- `MemoryManager.getMemoryStats`: recomputes the memory estimate from
the live collections (storing it back), then reports the aggregates. -/
def getMemoryStats (now : ℤ) (contexts : ContextsMap) (st : MMState) :
    MemoryStats × MMState :=
  let st2 := { st with memoryUsage := computeMemoryUsageMB contexts }
  let allCtxs := (contexts.map (fun e => e.2)).flatten
  let totalContexts := allCtxs.length
  let oldestAge := allCtxs.foldl (fun acc c => max acc (now - c.timestamp)) 0
  let newestAge :=
    match allCtxs with
    | [] => 0
    | c :: rest =>
      rest.foldl (fun acc c2 => min acc (now - c2.timestamp))
        (now - c.timestamp)
  let cacheTotal := st.cacheHits + st.cacheMisses
  ({ totalChats := contexts.length
     totalContexts := totalContexts
     totalMemoryMB := st2.memoryUsage
     oldestContextAge := oldestAge
     newestContextAge := newestAge
     averageContextSize :=
       if 0 < totalContexts then
         ((allCtxs.map (fun c => (c.content.length : ℚ))).sum) / totalContexts
       else 0
     compressionRatio := calculateCompressionRatio contexts
     cacheHitRate :=
       if 0 < cacheTotal then (st.cacheHits : ℚ) / cacheTotal else 0
     avgRetrievalTimeMs := averageOf st.retrievalTimes
     avgStorageTimeMs := averageOf st.storageTimes
     avgCompressionTimeMs := averageOf st.compressionTimes }, st2)

end MM

namespace MM

theorem contextSizeBytes_pos (c : SemanticContext) : 0 < contextSizeBytes c := by
  unfold contextSizeBytes
  omega

theorem chatSize_filter_le (p : SemanticContext → Bool)
    (l : List SemanticContext) :
    chatSizeBytes (l.filter p) ≤ chatSizeBytes l := by
  induction l with
  | nil => exact le_refl _
  | cons a t ih =>
    by_cases hp : p a
    · simp only [List.filter_cons, hp, if_pos, chatSizeBytes, List.map_cons,
        List.sum_cons]
      exact Nat.add_le_add_left ih _
    · simp only [List.filter_cons, hp, if_neg, Bool.false_eq_true, chatSizeBytes,
        List.map_cons, List.sum_cons]
      exact le_trans ih (Nat.le_add_left _ _)

theorem chatSize_filter_lt (p : SemanticContext → Bool)
    (l : List SemanticContext) (c : SemanticContext) (hc : c ∈ l)
    (hp : p c = false) :
    chatSizeBytes (l.filter p) < chatSizeBytes l := by
  induction l with
  | nil => cases hc
  | cons a t ih =>
    rcases List.mem_cons.mp hc with rfl | hct
    · simp only [List.filter_cons, hp, Bool.false_eq_true, if_neg]
      calc chatSizeBytes (t.filter p) ≤ chatSizeBytes t := chatSize_filter_le p t
      _ < contextSizeBytes c + chatSizeBytes t :=
        Nat.lt_add_of_pos_left (contextSizeBytes_pos c)
      _ = chatSizeBytes (c :: t) := by
        simp [chatSizeBytes]
    · by_cases hpa : p a
      · simp only [List.filter_cons, hpa, if_pos, chatSizeBytes, List.map_cons,
          List.sum_cons]
        exact Nat.add_lt_add_left (ih hct) _
      · simp only [List.filter_cons, hpa, Bool.false_eq_true, if_neg,
          chatSizeBytes, List.map_cons, List.sum_cons]
        exact lt_of_lt_of_le (ih hct) (Nat.le_add_left _ _)

theorem totalSize_sweep_le (p : SemanticContext → Bool) (m : ContextsMap) :
    totalSizeBytes (m.map (fun e => (e.1, e.2.filter p))) ≤ totalSizeBytes m := by
  induction m with
  | nil => exact le_refl _
  | cons e t ih =>
    simp only [List.map_cons, totalSizeBytes, List.sum_cons]
    exact Nat.add_le_add (chatSize_filter_le p e.2) ih

theorem totalSize_sweep_lt (p : SemanticContext → Bool) (m : ContextsMap)
    (e : String × List SemanticContext) (he : e ∈ m) (c : SemanticContext)
    (hc : c ∈ e.2) (hp : p c = false) :
    totalSizeBytes (m.map (fun x => (x.1, x.2.filter p))) < totalSizeBytes m := by
  induction m with
  | nil => cases he
  | cons a t ih =>
    rcases List.mem_cons.mp he with rfl | het
    · simp only [List.map_cons, totalSizeBytes, List.sum_cons]
      exact Nat.add_lt_add_of_lt_of_le (chatSize_filter_lt p e.2 c hc hp)
        (totalSize_sweep_le p t)
    · simp only [List.map_cons, totalSizeBytes, List.sum_cons]
      exact Nat.add_lt_add_of_le_of_lt (chatSize_filter_le p a.2) (ih het)

theorem totalSize_cons (e : String × List SemanticContext) (t : ContextsMap) :
    totalSizeBytes (e :: t) = chatSizeBytes e.2 + totalSizeBytes t := by
  simp [totalSizeBytes]

theorem totalSize_dropEmpty (m : ContextsMap) :
    totalSizeBytes (m.filter (fun e => e.2.length ≠ 0)) = totalSizeBytes m := by
  induction m with
  | nil => rfl
  | cons e t ih =>
    rw [List.filter_cons]
    by_cases hlen : e.2.length = 0
    · have he2 : e.2 = [] := List.length_eq_zero.mp hlen
      rw [if_neg (by simp [hlen]), ih, totalSize_cons]
      simp [chatSizeBytes, he2]
    · rw [if_pos (by simp [hlen]), totalSize_cons, ih, totalSize_cons]

/-- The age-sweep predicate of `performCleanup`. -/
def freshAt (maxAge : ℤ) (now : ℤ) (c : SemanticContext) : Bool :=
  decide (now - c.timestamp < maxAge)

end MM

namespace MM

theorem getMemoryStats_totalMemoryMB (now : ℤ) (contexts : ContextsMap)
    (st : MMState) :
    (getMemoryStats now contexts st).1.totalMemoryMB
      = computeMemoryUsageMB contexts := rfl

/-- `performCleanup` always reports `memoryFreedMB = 0`: the stale
`memoryUsage` estimate is never recomputed inside the pass, so the
difference of the before/after estimates vanishes. -/
theorem performCleanup_memoryFreed (cfg : MemoryConfig) (now : ℤ)
    (contexts : ContextsMap) (st : MMState) :
    (performCleanup cfg now contexts st).2.2.memoryFreedMB = 0 := by
  by_cases hc : shouldCompress cfg st
  · simp [performCleanup, hc, compressOldContexts]
  · simp [performCleanup, hc]

theorem removedCount_pos (pr : SemanticContext → Bool) (m : ContextsMap)
    (e : String × List SemanticContext) (he : e ∈ m) (c : SemanticContext)
    (hc : c ∈ e.2) (hp : pr c = true) :
    1 ≤ (m.map (fun x => (x.2.filter pr).length)).sum := by
  induction m with
  | nil => cases he
  | cons a t ih =>
    simp only [List.map_cons, List.sum_cons]
    rcases List.mem_cons.mp he with rfl | het
    · have : c ∈ e.2.filter pr := List.mem_filter.mpr ⟨hc, hp⟩
      have hlen : 0 < (e.2.filter pr).length :=
        List.length_pos.mpr (List.ne_nil_of_mem this)
      omega
    · have := ih het
      omega

/-- C9, amended: provided the stale memory estimate is below both the
inactive-removal threshold (80% of the ceiling) and the compression
threshold — so the pass is exactly the age sweep — a `performCleanup` that
finds at least one expired context removes it (`contextsRemoved ≥ 1`) and
the `totalMemoryMB` reported by `getMemoryStats` after the pass is
strictly lower than before; the returned `memoryFreedMB`, however, is `0`
(not positive), because `memoryUsage` is never recomputed during the
pass. -/
theorem c9_amended (cfg : MemoryConfig) (now : ℤ) (contexts : ContextsMap)
    (st : MMState)
    (hin : st.memoryUsage ≤ cfg.maxTotalMemoryMB * (8/10))
    (hcomp : st.memoryUsage ≤ cfg.maxTotalMemoryMB * cfg.compressionThreshold)
    (hexp : ∃ e ∈ contexts, ∃ c ∈ e.2,
      (cfg.maxContextAgeDays : ℤ) * 24 * 60 * 60 * 1000 ≤ now - c.timestamp) :
    (performCleanup cfg now contexts st).2.2.memoryFreedMB = 0
    ∧ 1 ≤ (performCleanup cfg now contexts st).2.2.contextsRemoved
    ∧ (getMemoryStats now (performCleanup cfg now contexts st).1
          (performCleanup cfg now contexts st).2.1).1.totalMemoryMB
        < (getMemoryStats now contexts st).1.totalMemoryMB := by
  have hni : ¬(cfg.maxTotalMemoryMB * (8/10) < st.memoryUsage) :=
    not_lt.mpr hin
  have hnc : ¬ shouldCompress cfg st := not_lt.mpr hcomp
  obtain ⟨e, he, c, hc, hage⟩ := hexp
  refine ⟨performCleanup_memoryFreed cfg now contexts st, ?_, ?_⟩
  · have hcount : (performCleanup cfg now contexts st).2.2.contextsRemoved
        = (contexts.map (fun x => (x.2.filter (fun c =>
            ¬(now - c.timestamp
              < (cfg.maxContextAgeDays : ℤ) * 24 * 60 * 60 * 1000))).length)).sum := by
      simp [performCleanup, hni, hnc]
    rw [hcount]
    exact removedCount_pos _ contexts e he c hc
      (by simpa using not_lt.mpr hage)
  · rw [getMemoryStats_totalMemoryMB, getMemoryStats_totalMemoryMB]
    have hres : (performCleanup cfg now contexts st).1
        = (contexts.map (fun x => (x.1, x.2.filter (fun c =>
            now - c.timestamp
              < (cfg.maxContextAgeDays : ℤ) * 24 * 60 * 60 * 1000)))).filter
            (fun x => x.2.length ≠ 0) := by
      simp [performCleanup, hni, hnc]
    rw [hres]
    unfold computeMemoryUsageMB
    have hlt : totalSizeBytes
        ((contexts.map (fun x => (x.1, x.2.filter (fun c =>
          now - c.timestamp
            < (cfg.maxContextAgeDays : ℤ) * 24 * 60 * 60 * 1000)))).filter
          (fun x => x.2.length ≠ 0))
        < totalSizeBytes contexts := by
      rw [totalSize_dropEmpty]
      exact totalSize_sweep_lt _ contexts e he c hc
        (by simpa using not_lt.mpr hage)
    exact div_lt_div_of_pos_right (by exact_mod_cast hlt) (by norm_num)

/-- A minimal expired context for the concrete cleanup run. -/
def expiredCtx : SemanticContext :=
  { id := "old-1", content := "some old content".data, embedding := [],
    semanticHash := [], confidence := 1/2, contextType := .query_result,
    metadata := [], timestamp := 0 }

/-- A manager state with a small stale memory estimate. -/
def staleState : MMState :=
  { memoryUsage := 1/100, accessPatterns := [], retrievalTimes := [],
    storageTimes := [], compressionTimes := [], cacheHits := 0,
    cacheMisses := 0 }

/-- C9, counterexample to the claim as stated: ten days after the
timestamp of the single stored context, the cleanup pass removes it
(`contextsRemoved = 1`), yet the returned `memoryFreedMB` is not
positive — it is `0`, never recomputed during the pass. -/
theorem c9_counterexample :
    (performCleanup defaultMemoryConfig 864000000 [("chat1", [expiredCtx])]
        staleState).2.2.contextsRemoved = 1
    ∧ ¬(0 < (performCleanup defaultMemoryConfig 864000000
        [("chat1", [expiredCtx])] staleState).2.2.memoryFreedMB) :=
  ⟨by decide, by
    rw [performCleanup_memoryFreed]
    exact lt_irrefl 0⟩

end MM

/-- Witness for `c9_amended` on the concrete expired-context run. -/
theorem c9_amended_witness :
    MM.staleState.memoryUsage
        ≤ MM.defaultMemoryConfig.maxTotalMemoryMB * (8/10)
    ∧ MM.staleState.memoryUsage
        ≤ MM.defaultMemoryConfig.maxTotalMemoryMB
            * MM.defaultMemoryConfig.compressionThreshold
    ∧ (∃ e ∈ [("chat1", [MM.expiredCtx])], ∃ c ∈ e.2,
        (MM.defaultMemoryConfig.maxContextAgeDays : ℤ) * 24 * 60 * 60 * 1000
          ≤ 864000000 - c.timestamp)
    ∧ ((MM.performCleanup MM.defaultMemoryConfig 864000000
          [("chat1", [MM.expiredCtx])] MM.staleState).2.2.memoryFreedMB = 0
      ∧ 1 ≤ (MM.performCleanup MM.defaultMemoryConfig 864000000
          [("chat1", [MM.expiredCtx])] MM.staleState).2.2.contextsRemoved
      ∧ (MM.getMemoryStats 864000000
            (MM.performCleanup MM.defaultMemoryConfig 864000000
              [("chat1", [MM.expiredCtx])] MM.staleState).1
            (MM.performCleanup MM.defaultMemoryConfig 864000000
              [("chat1", [MM.expiredCtx])] MM.staleState).2.1).1.totalMemoryMB
          < (MM.getMemoryStats 864000000 [("chat1", [MM.expiredCtx])]
              MM.staleState).1.totalMemoryMB) :=
  ⟨by norm_num [MM.staleState, MM.defaultMemoryConfig],
    by norm_num [MM.staleState, MM.defaultMemoryConfig],
    ⟨("chat1", [MM.expiredCtx]), List.mem_singleton.mpr rfl,
      MM.expiredCtx, List.mem_singleton.mpr rfl, by decide⟩,
    MM.c9_amended MM.defaultMemoryConfig 864000000 [("chat1", [MM.expiredCtx])]
      MM.staleState (by norm_num [MM.staleState, MM.defaultMemoryConfig])
      (by norm_num [MM.staleState, MM.defaultMemoryConfig])
      ⟨("chat1", [MM.expiredCtx]), List.mem_singleton.mpr rfl,
        MM.expiredCtx, List.mem_singleton.mpr rfl, by decide⟩⟩

/-! ## Semantic context manager (src/rag/semantic.ts,
`SemanticContextManager`) -/

namespace SCM

/-- The collaborator oracles of the manager: the embedding service (total:
the modelled runs are those in which every issued embedding request
succeeds) and the incremental-extraction LLM, keyed by (existing corpus,
new content); `none` models a text-generation failure, which the catch
branch turns into the cleaned new content. -/
structure SCMEnv where
  svcEmbed : Str → List ℚ
  extractLLM : Str → Str → Option Str

/-- The manager state: the per-chat collections (with the
`contexts.get(chatId) || []` access convention), the process-wide
`seenHashes` set shared by every chat, and the `contentEmbeddings` index
keyed by context id. -/
structure SCMState where
  contexts : String → List SemanticContext
  seenHashes : List Str
  contentEmbeddings : String → Option (List ℚ)

/-- `maxContextsPerChat`. -/
def maxContextsPerChat : ℕ := 15

/-- `maxContextAge` (45 minutes). -/
def maxContextAge : ℤ := 45 * 60 * 1000

/-- `duplicateThreshold`. -/
def duplicateThreshold : ℚ := 85/100

/-- `maxContentLength`. -/
def maxContentLength : ℕ := 1000

/-- The character class `[\w\s.,!?\-:;]` kept by `cleanContent`. -/
def keepCh (c : Char) : Bool :=
  isWordChar c || isSpaceChar c || c = '.' || c = ',' || c = '!' || c = '?' ||
    c = '-' || c = ':' || c = ';'

/-- `cleanContent`: collapse whitespace, replace the characters outside
`[\w\s.,!?\-:;]` by spaces, trim, truncate to 1000 characters. -/
def cleanContent (content : Str) : Str :=
  (trimStr ((collapseWs content).map (fun c => if keepCh c then c else ' '))).take
    maxContentLength

/-- The manager's `generateSemanticHash`: lowercase, collapse whitespace,
trim, then the 32-bit hash in base 36 (a different normalization from the
Deduplicator's). -/
def generateSemanticHash (content : Str) : Str :=
  intToRadix 36 (jsHash (trimStr (collapseWs (toLowerStr content))))

/-- The embedding a `generateEmbedding` call yields under a deterministic
service: the client normalizes the text and caches it by hash, so the
value is a function of the normalized text. -/
def embedOf (env : SCMEnv) (text : Str) : List ℚ :=
  env.svcEmbed (Embed.normalizeText text)

/-- `isDuplicate`: the semantic hash is looked up in the process-wide
`seenHashes` set — shared across chats — and only the embedding comparison
is scoped to this chat. -/
def isDuplicateP (st : SCMState) (chatId : String) (content : Str)
    (embedding : List ℚ) : Prop :=
  generateSemanticHash content ∈ st.seenHashes ∨
    ∃ c ∈ st.contexts chatId,
      (duplicateThreshold : ℝ) ≤ cosineSimilarity embedding c.embedding

/-- JavaScript object spread `{ ...a, ...b }`: the keys of `a` in their
order with values overridden by `b`, then the keys of `b` not in `a`, in
order. -/
def mergeMeta (a b : List (String × MetaVal)) : List (String × MetaVal) :=
  a.map (fun kv => (kv.1, (mapGet b kv.1).getD kv.2)) ++
    b.filter (fun kv => mapGet a kv.1 = none)

open Classical in
/-- The scan of `updateExistingContext` for the most similar context:
strict improvement, so the earliest maximiser is kept; the index locates
the array slot mutated in place. -/
noncomputable def bestMatchAux (v : List ℚ) :
    ℕ → ℝ × Option (ℕ × SemanticContext) → List SemanticContext →
      ℝ × Option (ℕ × SemanticContext)
  | _, acc, [] => acc
  | i, acc, c :: t =>
    bestMatchAux v (i + 1)
      (if acc.1 < cosineSimilarity v c.embedding then
        (cosineSimilarity v c.embedding, some (i, c))
      else acc) t

/-- The `highestSimilarity`/`mostSimilar` pair after the scan. -/
noncomputable def bestMatch (v : List ℚ) (l : List SemanticContext) :
    ℝ × Option (ℕ × SemanticContext) :=
  bestMatchAux v 0 (0, none) l

open Classical in
/-- `updateExistingContext`: when the most similar context of this chat
reaches the duplicate threshold and the incoming confidence is strictly
higher, that context's confidence is raised, its metadata merged by spread
and its timestamp refreshed in place; otherwise the state is unchanged. -/
noncomputable def updateExistingContext (env : SCMEnv) (st : SCMState)
    (chatId : String) (content : Str) (confidence : ℚ)
    (metadata : List (String × MetaVal)) (now : ℤ) : SCMState :=
  match bestMatch (embedOf env content) (st.contexts chatId) with
  | (_, none) => st
  | (best, some (k, c)) =>
    if (duplicateThreshold : ℝ) ≤ best then
      if c.confidence < confidence then
        { st with
            contexts := Function.update st.contexts chatId
              ((st.contexts chatId).set k
                { c with
                    confidence := confidence,
                    metadata := mergeMeta c.metadata metadata,
                    timestamp := now }) }
      else st
    else st

/-- `extractAdditionalInfo`: with an empty chat corpus the cleaned new
content is returned directly; otherwise the LLM response is trimmed, a
`NONE` or short response yields the empty string, and a failure falls back
to the cleaned new content. -/
def extractAdditionalInfo (env : SCMEnv) (st : SCMState) (chatId : String)
    (newContent : Str) : Str :=
  let existingContent := joinSpace ((st.contexts chatId).map (fun c => c.content))
  if (trimStr existingContent).length = 0 then cleanContent newContent
  else
    match env.extractLLM existingContent newContent with
    | none => cleanContent newContent
    | some resp =>
      let result := trimStr resp
      if toUpperStr result = "NONE".data ∨ result.length < 10 then []
      else cleanContent result

/-- The retention score of `maintainContextLimits`:
`confidence · exp(-(now - timestamp)/maxContextAge)`. -/
noncomputable def retentionScore (now : ℤ) (c : SemanticContext) : ℝ :=
  (c.confidence : ℝ) *
    Real.exp (-((now - c.timestamp : ℤ) : ℝ) / (maxContextAge : ℝ))

/-- Descending retention score, the sort comparator of
`maintainContextLimits`. -/
def retentionDesc (now : ℤ) (a b : SemanticContext) : Prop :=
  retentionScore now b ≤ retentionScore now a

instance (now : ℤ) : IsTotal SemanticContext (retentionDesc now) :=
  ⟨fun a b => le_total (retentionScore now b) (retentionScore now a)⟩

instance (now : ℤ) : IsTrans SemanticContext (retentionDesc now) :=
  ⟨fun _ _ _ h1 h2 => le_trans h2 h1⟩

/-- The in-place sort of `maintainContextLimits`. -/
noncomputable def sortByRetention (now : ℤ) (l : List SemanticContext) :
    List SemanticContext :=
  @List.insertionSort _ (retentionDesc now) (fun _ _ => Classical.dec _) l

/-- `maintainContextLimits`: beyond the per-chat cap the chat is sorted by
descending retention score, the first fifteen are kept, and every removed
context has its hash deleted from `seenHashes` and its id deleted from
`contentEmbeddings`. -/
noncomputable def maintainContextLimits (now : ℤ) (chatId : String)
    (st : SCMState) : SCMState :=
  if (st.contexts chatId).length ≤ maxContextsPerChat then st
  else
    { contexts := Function.update st.contexts chatId
        ((sortByRetention now (st.contexts chatId)).take maxContextsPerChat)
      seenHashes :=
        ((sortByRetention now (st.contexts chatId)).drop
          maxContextsPerChat).foldl
          (fun s c => s.erase c.semanticHash) st.seenHashes
      contentEmbeddings := fun i =>
        if ((sortByRetention now (st.contexts chatId)).drop
            maxContextsPerChat).any (fun c => c.id == i) then none
        else st.contentEmbeddings i }

/-- The `SemanticContext` record built in the storing branch of
`addContext`: the content is the extracted additional information, while
the embedding and semantic hash were computed from the cleaned input. -/
def newCtx (env : SCMEnv) (st : SCMState) (chatId : String) (content : Str)
    (ctype : CtxType) (confidence : ℚ) (metadata : List (String × MetaVal))
    (now : ℤ) (freshId : String) : SemanticContext :=
  let cleaned := cleanContent content
  let additionalInfo := extractAdditionalInfo env st chatId cleaned
  { id := freshId
    content := additionalInfo
    embedding := embedOf env cleaned
    semanticHash := generateSemanticHash cleaned
    confidence := confidence
    contextType := ctype
    metadata := mergeMeta metadata
      [("originalLength", .num content.length),
       ("processedLength", .num additionalInfo.length),
       ("compressionRatio", .num
         (if 0 < content.length then
           (additionalInfo.length : ℚ) / content.length else 0))]
    timestamp := now }

/-- The state right after the storing branch pushed the new context and
indexed its hash and embedding, before the cap is enforced. -/
def pushedState (env : SCMEnv) (st : SCMState) (chatId : String)
    (content : Str) (ctype : CtxType) (confidence : ℚ)
    (metadata : List (String × MetaVal)) (now : ℤ) (freshId : String) :
    SCMState :=
  let semHash := generateSemanticHash (cleanContent content)
  { contexts := Function.update st.contexts chatId
      (st.contexts chatId
        ++ [newCtx env st chatId content ctype confidence metadata now freshId])
    seenHashes :=
      if semHash ∈ st.seenHashes then st.seenHashes
      else st.seenHashes ++ [semHash]
    contentEmbeddings :=
      Function.update st.contentEmbeddings freshId
        (some (embedOf env (cleanContent content))) }

open Classical in
/-- `addContext`: clean and length-gate the content, embed and hash it,
divert duplicates to `updateExistingContext`, extract the genuinely new
information, store the resulting context, index its hash and embedding,
and enforce the per-chat cap.  An embedding call on text that normalizes
to the empty string throws inside the source before any state is touched;
the model returns the state unchanged there. -/
noncomputable def addContext (env : SCMEnv) (st : SCMState) (chatId : String)
    (content : Str) (ctype : CtxType) (confidence : ℚ)
    (metadata : List (String × MetaVal)) (now : ℤ) (freshId : String) :
    SCMState :=
  let cleaned := cleanContent content
  if cleaned.length < 10 then st
  else if (trimStr (Embed.normalizeText cleaned)).length = 0 then st
  else if isDuplicateP st chatId cleaned (embedOf env cleaned) then
    updateExistingContext env st chatId cleaned confidence metadata now
  else if (extractAdditionalInfo env st chatId cleaned).length = 0
      ∨ (trimStr (extractAdditionalInfo env st chatId cleaned)).length < 20 then
    st
  else
    maintainContextLimits now chatId
      (pushedState env st chatId content ctype confidence metadata now freshId)

end SCM

namespace SCM

theorem bestMatchAux_spec (v : List ℚ) :
    ∀ (t : List SemanticContext) (i : ℕ)
      (acc : ℝ × Option (ℕ × SemanticContext)),
      bestMatchAux v i acc t = acc ∨
      ∃ k c, (bestMatchAux v i acc t).2 = some (k, c) ∧ c ∈ t ∧
        (bestMatchAux v i acc t).1 = cosineSimilarity v c.embedding := by
  intro t
  induction t with
  | nil => intro i acc; exact Or.inl rfl
  | cons c t ih =>
    intro i acc
    simp only [bestMatchAux]
    by_cases hlt : acc.1 < cosineSimilarity v c.embedding
    · rw [if_pos hlt]
      rcases ih (i + 1) (cosineSimilarity v c.embedding, some (i, c)) with
        h | ⟨k, c2, h1, h2, h3⟩
      · right
        exact ⟨i, c, by rw [h], List.mem_cons_self c t, by rw [h]⟩
      · right
        exact ⟨k, c2, h1, List.mem_cons_of_mem c h2, h3⟩
    · rw [if_neg hlt]
      rcases ih (i + 1) acc with h | ⟨k, c2, h1, h2, h3⟩
      · exact Or.inl h
      · right
        exact ⟨k, c2, h1, List.mem_cons_of_mem c h2, h3⟩

theorem bestMatch_spec (v : List ℚ) (l : List SemanticContext) :
    bestMatch v l = (0, none) ∨
    ∃ k c, (bestMatch v l).2 = some (k, c) ∧ c ∈ l ∧
      (bestMatch v l).1 = cosineSimilarity v c.embedding :=
  bestMatchAux_spec v l 0 (0, none)

/-- When no context of the chat reaches the duplicate threshold,
`updateExistingContext` changes nothing. -/
theorem updateExistingContext_noop (env : SCMEnv) (st : SCMState)
    (chatId : String) (content : Str) (confidence : ℚ)
    (metadata : List (String × MetaVal)) (now : ℤ)
    (hsim : ∀ c ∈ st.contexts chatId,
      cosineSimilarity (embedOf env content) c.embedding
        < (duplicateThreshold : ℝ)) :
    updateExistingContext env st chatId content confidence metadata now = st := by
  unfold updateExistingContext
  rcases bestMatch_spec (embedOf env content) (st.contexts chatId) with
    h | ⟨k, c, h1, h2, h3⟩
  · rw [h]
  · have hpair : bestMatch (embedOf env content) (st.contexts chatId)
        = ((bestMatch (embedOf env content) (st.contexts chatId)).1,
            some (k, c)) := Prod.ext rfl h1
    rw [hpair, h3]
    simp only
    rw [if_neg (not_le.mpr (hsim c h2))]

/-- C10: the semantic-hash duplicate check of `addContext` consults the
single process-wide `seenHashes` set, not a per-chat index.  If the hash
of the cleaned content is present — regardless of which chat stored it —
the call takes the duplicate branch; and if additionally no context of the
target chat reaches embedding similarity `0.85`, the call stores nothing
and leaves the whole state unchanged: the content is silently dropped for
this chat. -/
theorem c10_global_hash_dedup (env : SCMEnv) (st : SCMState)
    (chatId : String) (content : Str) (ctype : CtxType) (confidence : ℚ)
    (metadata : List (String × MetaVal)) (now : ℤ) (freshId : String)
    (hlen : ¬(cleanContent content).length < 10)
    (hne : ¬(trimStr (Embed.normalizeText (cleanContent content))).length = 0)
    (hhash : generateSemanticHash (cleanContent content) ∈ st.seenHashes)
    (hsim : ∀ c ∈ st.contexts chatId,
      cosineSimilarity (embedOf env (cleanContent content)) c.embedding
        < (duplicateThreshold : ℝ)) :
    isDuplicateP st chatId (cleanContent content)
      (embedOf env (cleanContent content))
    ∧ addContext env st chatId content ctype confidence metadata now freshId
        = st := by
  have hdup : isDuplicateP st chatId (cleanContent content)
      (embedOf env (cleanContent content)) := Or.inl hhash
  refine ⟨hdup, ?_⟩
  unfold addContext
  rw [if_neg hlen, if_neg hne, if_pos hdup]
  exact updateExistingContext_noop env st chatId (cleanContent content)
    confidence metadata now hsim

end SCM

/-- Witness for `c10_global_hash_dedup`: the hash of the incoming content
was recorded by some other chat (the target chat is empty), and the add is
silently dropped. -/
theorem c10_global_hash_dedup_witness :
    (¬(SCM.cleanContent "the capital of france is paris".data).length < 10)
    ∧ SCM.generateSemanticHash
        (SCM.cleanContent "the capital of france is paris".data)
      ∈ [SCM.generateSemanticHash
        (SCM.cleanContent "the capital of france is paris".data)]
    ∧ (SCM.isDuplicateP
        ⟨fun _ => [],
          [SCM.generateSemanticHash
            (SCM.cleanContent "the capital of france is paris".data)],
          fun _ => none⟩
        "chatB" (SCM.cleanContent "the capital of france is paris".data)
        (SCM.embedOf ⟨fun _ => [1], fun _ _ => none⟩
          (SCM.cleanContent "the capital of france is paris".data))
      ∧ SCM.addContext ⟨fun _ => [1], fun _ _ => none⟩
          ⟨fun _ => [],
            [SCM.generateSemanticHash
              (SCM.cleanContent "the capital of france is paris".data)],
            fun _ => none⟩
          "chatB" "the capital of france is paris".data .user_input (8/10) []
          12345 "fresh-id"
        = ⟨fun _ => [],
            [SCM.generateSemanticHash
              (SCM.cleanContent "the capital of france is paris".data)],
            fun _ => none⟩) :=
  ⟨by decide, List.mem_singleton.mpr rfl,
    SCM.c10_global_hash_dedup ⟨fun _ => [1], fun _ _ => none⟩
      ⟨fun _ => [],
        [SCM.generateSemanticHash
          (SCM.cleanContent "the capital of france is paris".data)],
        fun _ => none⟩
      "chatB" "the capital of france is paris".data .user_input (8/10) []
      12345 "fresh-id" (by decide) (by decide)
      (List.mem_singleton.mpr rfl) (by simp)⟩

namespace SCM

/-- `updateExistingContext` either leaves the state unchanged or raises
the confidence of one existing context of this chat in place (merging
metadata, refreshing the timestamp), and only when the incoming confidence
is strictly higher. -/
theorem updateExistingContext_cases (env : SCMEnv) (st : SCMState)
    (chatId : String) (content : Str) (confidence : ℚ)
    (metadata : List (String × MetaVal)) (now : ℤ) :
    updateExistingContext env st chatId content confidence metadata now = st ∨
    ∃ k c, c ∈ st.contexts chatId ∧ c.confidence < confidence ∧
      updateExistingContext env st chatId content confidence metadata now
        = { st with
            contexts := Function.update st.contexts chatId
              ((st.contexts chatId).set k
                { c with
                    confidence := confidence,
                    metadata := mergeMeta c.metadata metadata,
                    timestamp := now }) } := by
  unfold updateExistingContext
  rcases bestMatch_spec (embedOf env content) (st.contexts chatId) with
    h | ⟨k, c, h1, h2, h3⟩
  · rw [h]
    exact Or.inl rfl
  · have hpair : bestMatch (embedOf env content) (st.contexts chatId)
        = ((bestMatch (embedOf env content) (st.contexts chatId)).1,
            some (k, c)) := Prod.ext rfl h1
    rw [hpair]
    simp only
    by_cases hth : (duplicateThreshold : ℝ)
        ≤ (bestMatch (embedOf env content) (st.contexts chatId)).1
    · rw [if_pos hth]
      by_cases hconf : c.confidence < confidence
      · rw [if_pos hconf]
        exact Or.inr ⟨k, c, h2, hconf, rfl⟩
      · rw [if_neg hconf]
        exact Or.inl rfl
    · rw [if_neg hth]
      exact Or.inl rfl

theorem updateExistingContext_length (env : SCMEnv) (st : SCMState)
    (chatId : String) (content : Str) (confidence : ℚ)
    (metadata : List (String × MetaVal)) (now : ℤ) (ch : String) :
    ((updateExistingContext env st chatId content confidence metadata
        now).contexts ch).length = (st.contexts ch).length := by
  rcases updateExistingContext_cases env st chatId content confidence
    metadata now with h | ⟨k, c, _, _, h⟩
  · rw [h]
  · rw [h]
    by_cases hch : ch = chatId
    · subst hch
      show (Function.update st.contexts ch _ ch).length = _
      rw [Function.update_same, List.length_set]
    · show (Function.update st.contexts chatId _ ch).length = _
      rw [Function.update_noteq hch]

theorem maintain_other (now : ℤ) (chatId : String) (st : SCMState)
    (ch : String) (h : ch ≠ chatId) :
    (maintainContextLimits now chatId st).contexts ch = st.contexts ch := by
  unfold maintainContextLimits
  split
  · rfl
  · exact Function.update_noteq h _ _

theorem maintain_length (now : ℤ) (chatId : String) (st : SCMState) :
    ((maintainContextLimits now chatId st).contexts chatId).length
      ≤ maxContextsPerChat := by
  unfold maintainContextLimits
  split
  · assumption
  · show (Function.update st.contexts chatId _ chatId).length ≤ _
    rw [Function.update_same]
    exact List.length_take_le _ _

theorem maintain_subset (now : ℤ) (chatId : String) (st : SCMState) :
    ∀ x ∈ (maintainContextLimits now chatId st).contexts chatId,
      x ∈ st.contexts chatId := by
  unfold maintainContextLimits
  split
  · exact fun x h => h
  · intro x hx
    have hx2 : x ∈ Function.update st.contexts chatId
        ((sortByRetention now (st.contexts chatId)).take maxContextsPerChat)
          chatId := hx
    rw [Function.update_same] at hx2
    exact (@List.perm_insertionSort _ (retentionDesc now)
        (fun _ _ => Classical.dec _) (st.contexts chatId)).mem_iff.mp
      (List.mem_of_mem_take hx2)

/-- When the chat is within the cap, `maintainContextLimits` does
nothing. -/
theorem maintain_small (now : ℤ) (chatId : String) (st : SCMState)
    (h : (st.contexts chatId).length ≤ maxContextsPerChat) :
    maintainContextLimits now chatId st = st := by
  unfold maintainContextLimits
  rw [if_pos h]

/-- The branch structure of `addContext`: a no-op, a diversion to
`updateExistingContext` on the cleaned content, or a store followed by the
cap enforcement. -/
theorem addContext_cases (env : SCMEnv) (st : SCMState) (chatId : String)
    (content : Str) (ctype : CtxType) (confidence : ℚ)
    (metadata : List (String × MetaVal)) (now : ℤ) (freshId : String) :
    addContext env st chatId content ctype confidence metadata now freshId = st
    ∨ addContext env st chatId content ctype confidence metadata now freshId
        = updateExistingContext env st chatId (cleanContent content)
            confidence metadata now
    ∨ addContext env st chatId content ctype confidence metadata now freshId
        = maintainContextLimits now chatId
            (pushedState env st chatId content ctype confidence metadata now
              freshId) := by
  unfold addContext
  by_cases h1 : (cleanContent content).length < 10
  · rw [if_pos h1]
    exact Or.inl rfl
  rw [if_neg h1]
  by_cases h2 : (trimStr (Embed.normalizeText (cleanContent content))).length = 0
  · rw [if_pos h2]
    exact Or.inl rfl
  rw [if_neg h2]
  by_cases h3 : isDuplicateP st chatId (cleanContent content)
      (embedOf env (cleanContent content))
  · rw [if_pos h3]
    exact Or.inr (Or.inl rfl)
  rw [if_neg h3]
  by_cases h4 : (extractAdditionalInfo env st chatId (cleanContent content)).length = 0
      ∨ (trimStr (extractAdditionalInfo env st chatId (cleanContent content))).length < 20
  · rw [if_pos h4]
    exact Or.inl rfl
  · rw [if_neg h4]
    exact Or.inr (Or.inr rfl)

theorem foldl_erase_subset (l : List SemanticContext) :
    ∀ s : List Str,
      l.foldl (fun s c => s.erase c.semanticHash) s ⊆ s := by
  induction l with
  | nil => intro s; exact fun x h => h
  | cons c t ih =>
    intro s
    simp only [List.foldl_cons]
    exact (ih (s.erase c.semanticHash)).trans (List.erase_subset _ _)

theorem notMem_foldl_erase (l : List SemanticContext) :
    ∀ s : List Str, s.Nodup → ∀ b ∈ l,
      b.semanticHash ∉ l.foldl (fun s c => s.erase c.semanticHash) s := by
  induction l with
  | nil => intro s _ b hb; cases hb
  | cons c t ih =>
    intro s hs b hb hmem
    simp only [List.foldl_cons] at hmem
    rcases List.mem_cons.mp hb with rfl | hbt
    · have hsub : b.semanticHash ∈ s.erase b.semanticHash :=
        foldl_erase_subset t _ hmem
      exact ((List.Nodup.mem_erase_iff hs).mp hsub).1 rfl
    · exact ih (s.erase c.semanticHash) (hs.erase _) b hbt hmem

end SCM

namespace SCM

/-- The content of claim C5 over the model: after any `addContext` every
chat remains within the per-chat cap of fifteen; and whenever a chat
exceeds the cap, `maintainContextLimits` keeps exactly fifteen contexts
whose `confidence · exp(-age/maxAge)` retention scores dominate the score
of every evicted context, and each evicted context loses its `seenHashes`
and `contentEmbeddings` index entries. -/
def C5Statement (env : SCMEnv) (st : SCMState) (chatId : String)
    (content : Str) (ctype : CtxType) (confidence : ℚ)
    (metadata : List (String × MetaVal)) (now : ℤ) (freshId : String) :
    Prop :=
  (∀ ch, ((addContext env st chatId content ctype confidence metadata now
      freshId).contexts ch).length ≤ maxContextsPerChat)
  ∧ (∀ (now2 : ℤ) (ch : String) (st2 : SCMState),
      maxContextsPerChat < (st2.contexts ch).length →
      st2.seenHashes.Nodup →
        ((maintainContextLimits now2 ch st2).contexts ch).length
            = maxContextsPerChat
        ∧ ∃ removed, (st2.contexts ch).Perm
            ((maintainContextLimits now2 ch st2).contexts ch ++ removed)
          ∧ (∀ a ∈ (maintainContextLimits now2 ch st2).contexts ch,
              ∀ b ∈ removed, retentionScore now2 b ≤ retentionScore now2 a)
          ∧ (∀ b ∈ removed,
              b.semanticHash ∉ (maintainContextLimits now2 ch st2).seenHashes
              ∧ (maintainContextLimits now2 ch st2).contentEmbeddings b.id
                  = none))

/-- C5: the per-chat cap invariant and the characterization of the
eviction pass. -/
theorem c5_per_chat_cap (env : SCMEnv) (st : SCMState) (chatId : String)
    (content : Str) (ctype : CtxType) (confidence : ℚ)
    (metadata : List (String × MetaVal)) (now : ℤ) (freshId : String)
    (hInv : ∀ ch, (st.contexts ch).length ≤ maxContextsPerChat) :
    C5Statement env st chatId content ctype confidence metadata now freshId := by
  constructor
  · intro ch
    rcases addContext_cases env st chatId content ctype confidence metadata
      now freshId with h | h | h
    · rw [h]
      exact hInv ch
    · rw [h, updateExistingContext_length]
      exact hInv ch
    · rw [h]
      by_cases hch : ch = chatId
      · subst hch
        exact maintain_length now ch _
      · rw [maintain_other now chatId _ ch hch]
        show ((Function.update st.contexts chatId _ : String → _) ch).length ≤ _
        rw [Function.update_noteq hch]
        exact hInv ch
  · intro now2 ch st2 hgt hnd
    have hif : ¬((st2.contexts ch).length ≤ maxContextsPerChat) :=
      not_le.mpr hgt
    have hsortperm : (sortByRetention now2 (st2.contexts ch)).Perm
        (st2.contexts ch) :=
      @List.perm_insertionSort _ (retentionDesc now2)
        (fun _ _ => Classical.dec _) _
    have hsortlen : (sortByRetention now2 (st2.contexts ch)).length
        = (st2.contexts ch).length := hsortperm.length_eq
    have hsorted : List.Sorted (retentionDesc now2)
        (sortByRetention now2 (st2.contexts ch)) :=
      @List.sorted_insertionSort _ (retentionDesc now2)
        (fun _ _ => Classical.dec _) inferInstance inferInstance _
    have hmaintain_ctx : (maintainContextLimits now2 ch st2).contexts ch
        = (sortByRetention now2 (st2.contexts ch)).take maxContextsPerChat := by
      unfold maintainContextLimits
      rw [if_neg hif]
      exact Function.update_same _ _ _
    have hmaintain_seen : (maintainContextLimits now2 ch st2).seenHashes
        = ((sortByRetention now2 (st2.contexts ch)).drop
            maxContextsPerChat).foldl
            (fun s c => s.erase c.semanticHash) st2.seenHashes := by
      unfold maintainContextLimits
      rw [if_neg hif]
    have hmaintain_emb : ∀ i,
        (maintainContextLimits now2 ch st2).contentEmbeddings i
          = if ((sortByRetention now2 (st2.contexts ch)).drop
              maxContextsPerChat).any (fun c => c.id == i) then none
            else st2.contentEmbeddings i := by
      intro i
      unfold maintainContextLimits
      rw [if_neg hif]
    refine ⟨?_,
      (sortByRetention now2 (st2.contexts ch)).drop maxContextsPerChat,
      ?_, ?_, ?_⟩
    · rw [hmaintain_ctx, List.length_take, hsortlen]
      exact min_eq_left (le_of_lt hgt)
    · rw [hmaintain_ctx, List.take_append_drop]
      exact hsortperm.symm
    · rw [hmaintain_ctx]
      intro a ha b hb
      have hpw := hsorted
      rw [← List.take_append_drop maxContextsPerChat
        (sortByRetention now2 (st2.contexts ch))] at hpw
      exact (List.pairwise_append.mp hpw).2.2 a ha b hb
    · intro b hb
      constructor
      · rw [hmaintain_seen]
        exact notMem_foldl_erase _ _ hnd b hb
      · rw [hmaintain_emb, if_pos (List.any_eq_true.mpr ⟨b, hb, by simp⟩)]

end SCM

/-- Witness for `c5_per_chat_cap`: the empty store satisfies the cap
invariant, and the theorem applies to a concrete add. -/
theorem c5_per_chat_cap_witness :
    (∀ ch, (((⟨fun _ => [], [], fun _ => none⟩ : SCM.SCMState)).contexts
        ch).length ≤ SCM.maxContextsPerChat)
    ∧ SCM.C5Statement ⟨fun _ => [1], fun _ _ => none⟩
        ⟨fun _ => [], [], fun _ => none⟩ "chat1"
        "twenty characters of new content here".data .query_result (9/10) []
        500 "id-1" :=
  ⟨fun _ => Nat.zero_le _,
    SCM.c5_per_chat_cap ⟨fun _ => [1], fun _ _ => none⟩
      ⟨fun _ => [], [], fun _ => none⟩ "chat1"
      "twenty characters of new content here".data .query_result (9/10) []
      500 "id-1" (fun _ => Nat.zero_le _)⟩

namespace SCM

theorem pushedState_contexts (env : SCMEnv) (st : SCMState)
    (chatId : String) (content : Str) (ctype : CtxType) (confidence : ℚ)
    (metadata : List (String × MetaVal)) (now : ℤ) (freshId : String)
    (ch : String) :
    (pushedState env st chatId content ctype confidence metadata now
        freshId).contexts ch
      = if ch = chatId then
          st.contexts chatId
            ++ [newCtx env st chatId content ctype confidence metadata now
                freshId]
        else st.contexts ch := by
  by_cases hch : ch = chatId
  · subst hch
    rw [if_pos rfl]
    exact Function.update_same _ _ _
  · rw [if_neg hch]
    exact Function.update_noteq hch _ _

/-- With an empty chat, `extractAdditionalInfo` skips the LLM and returns
the cleaned content. -/
theorem extract_empty (env : SCMEnv) (st : SCMState) (chatId : String)
    (newContent : Str) (h : st.contexts chatId = []) :
    extractAdditionalInfo env st chatId newContent
      = cleanContent newContent := by
  unfold extractAdditionalInfo
  rw [h]
  rfl

theorem bestMatch_single (v : List ℚ) (c : SemanticContext)
    (h : 0 < cosineSimilarity v c.embedding) :
    bestMatch v [c] = (cosineSimilarity v c.embedding, some (0, c)) := by
  unfold bestMatch bestMatchAux
  rw [if_pos h]
  rfl

/-- Across any single `addContext`, a context present before and after
the call — matched by id, with ids unique in the chat and distinct from
the fresh id — never loses confidence. -/
theorem addContext_confidence_mono (env : SCMEnv) (st : SCMState)
    (chatId : String) (content : Str) (ctype : CtxType) (confidence : ℚ)
    (metadata : List (String × MetaVal)) (now : ℤ) (freshId : String)
    (ch : String)
    (hnodup : ((st.contexts ch).map (fun c => c.id)).Nodup)
    (hfresh : ∀ c ∈ st.contexts ch, c.id ≠ freshId) :
    ∀ c2 ∈ (addContext env st chatId content ctype confidence metadata now
        freshId).contexts ch,
      ∀ c1 ∈ st.contexts ch, c2.id = c1.id →
        c1.confidence ≤ c2.confidence := by
  have hinj := List.inj_on_of_nodup_map hnodup
  have hbase : ∀ c2 ∈ st.contexts ch, ∀ c1 ∈ st.contexts ch,
      c2.id = c1.id → c1.confidence ≤ c2.confidence := by
    intro c2 h2 c1 h1 hid
    rw [hinj h1 h2 hid.symm]
  rcases addContext_cases env st chatId content ctype confidence metadata
    now freshId with h | h | h
  · rw [h]
    exact hbase
  · rw [h]
    rcases updateExistingContext_cases env st chatId (cleanContent content)
      confidence metadata now with h2 | ⟨k, c, hc, hconf, h2⟩
    · rw [h2]
      exact hbase
    · rw [h2]
      by_cases hch : ch = chatId
      · subst hch
        intro c2 hc2 c1 hc1 hid
        rw [show ({ st with
              contexts := Function.update st.contexts ch
                ((st.contexts ch).set k
                  { c with
                      confidence := confidence,
                      metadata := mergeMeta c.metadata metadata,
                      timestamp := now }) } : SCMState).contexts ch
            = (st.contexts ch).set k
                { c with
                    confidence := confidence,
                    metadata := mergeMeta c.metadata metadata,
                    timestamp := now }
          from Function.update_same _ _ _] at hc2
        rcases List.mem_or_eq_of_mem_set hc2 with hmem | rfl
        · exact hbase c2 hmem c1 hc1 hid
        · have hc1c : c1 = c := hinj hc1 hc (by simpa using hid.symm)
          rw [hc1c]
          exact le_of_lt hconf
      · intro c2 hc2 c1 hc1 hid
        rw [show ({ st with
              contexts := Function.update st.contexts chatId
                ((st.contexts chatId).set k
                  { c with
                      confidence := confidence,
                      metadata := mergeMeta c.metadata metadata,
                      timestamp := now }) } : SCMState).contexts ch
            = st.contexts ch
          from Function.update_noteq hch _ _] at hc2
        exact hbase c2 hc2 c1 hc1 hid
  · rw [h]
    intro c2 hc2 c1 hc1 hid
    by_cases hch : ch = chatId
    · subst hch
      have hc2p := maintain_subset now ch _ c2 hc2
      rw [pushedState_contexts, if_pos rfl] at hc2p
      rcases List.mem_append.mp hc2p with hmem | hnew
      · exact hbase c2 hmem c1 hc1 hid
      · rcases List.mem_singleton.mp hnew with rfl
        exact absurd hid.symm (by
          simpa [newCtx] using hfresh c1 hc1)
    · rw [maintain_other now chatId _ ch hch, pushedState_contexts,
        if_neg hch] at hc2
      exact hbase c2 hc2 c1 hc1 hid

end SCM

namespace SCM

/-- First add of a content into an empty chat with an unseen hash: the
content is stored as the single context of the chat and its hash is
appended to `seenHashes`. -/
theorem addContext_first (env : SCMEnv) (st : SCMState) (chatId : String)
    (content : Str) (ctype : CtxType) (conf1 : ℚ)
    (meta1 : List (String × MetaVal)) (now1 : ℤ) (id1 : String)
    (h10 : ¬(cleanContent content).length < 10)
    (hne : ¬(trimStr (Embed.normalizeText (cleanContent content))).length = 0)
    (hempty : st.contexts chatId = [])
    (hhash : generateSemanticHash (cleanContent content) ∉ st.seenHashes)
    (h20 : ¬((cleanContent (cleanContent content)).length = 0
        ∨ (trimStr (cleanContent (cleanContent content))).length < 20)) :
    addContext env st chatId content ctype conf1 meta1 now1 id1
      = pushedState env st chatId content ctype conf1 meta1 now1 id1
    ∧ (pushedState env st chatId content ctype conf1 meta1 now1
        id1).contexts chatId
      = [newCtx env st chatId content ctype conf1 meta1 now1 id1]
    ∧ (pushedState env st chatId content ctype conf1 meta1 now1
        id1).seenHashes
      = st.seenHashes ++ [generateSemanticHash (cleanContent content)] := by
  have hdup : ¬ isDuplicateP st chatId (cleanContent content)
      (embedOf env (cleanContent content)) := by
    intro hd
    rcases hd with h | ⟨c, hc, _⟩
    · exact hhash h
    · rw [hempty] at hc
      cases hc
  have hextract : extractAdditionalInfo env st chatId (cleanContent content)
      = cleanContent (cleanContent content) :=
    extract_empty env st chatId _ hempty
  have hctxs : (pushedState env st chatId content ctype conf1 meta1 now1
      id1).contexts chatId
      = [newCtx env st chatId content ctype conf1 meta1 now1 id1] := by
    rw [pushedState_contexts, if_pos rfl, hempty]
    rfl
  refine ⟨?_, hctxs, ?_⟩
  · unfold addContext
    rw [if_neg h10, if_neg hne, if_neg hdup,
      if_neg (by rw [hextract]; exact h20)]
    exact maintain_small now1 chatId _
      (by rw [hctxs]; norm_num [maxContextsPerChat])
  · show (if generateSemanticHash (cleanContent content) ∈ st.seenHashes
        then st.seenHashes
        else st.seenHashes
          ++ [generateSemanticHash (cleanContent content)]) = _
    rw [if_neg hhash]

/-- When the new content is flagged as a duplicate, `addContext` routes the
call to `updateExistingContext`. -/
theorem addContext_dup (env : SCMEnv) (st : SCMState) (chatId : String)
    (content : Str) (ctype : CtxType) (confidence : ℚ)
    (metadata : List (String × MetaVal)) (now : ℤ) (freshId : String)
    (h10 : ¬(cleanContent content).length < 10)
    (hne : ¬(trimStr (Embed.normalizeText (cleanContent content))).length = 0)
    (hdup : isDuplicateP st chatId (cleanContent content)
      (embedOf env (cleanContent content))) :
    addContext env st chatId content ctype confidence metadata now freshId
      = updateExistingContext env st chatId (cleanContent content)
          confidence metadata now := by
  unfold addContext
  rw [if_neg h10, if_neg hne, if_pos hdup]

/-- The content of claim C6 over the model: the first add of a content to
an empty chat stores exactly one context carrying the submitted
confidence; a second add of the identical content with strictly higher
confidence updates that context in place (confidence raised, metadata
merged, timestamp refreshed) without changing the count, and with
lower-or-equal confidence changes nothing; and no single `addContext`
ever lowers the confidence of a context that remains stored. -/
def C6Statement (env : SCMEnv) (st : SCMState) (chatId : String)
    (content : Str) (ctype : CtxType) (conf1 conf2 : ℚ)
    (meta1 meta2 : List (String × MetaVal)) (now1 now2 : ℤ)
    (id1 id2 : String) : Prop :=
  ((addContext env st chatId content ctype conf1 meta1 now1 id1).contexts
      chatId).length = 1
  ∧ (∃ c1,
      (addContext env st chatId content ctype conf1 meta1 now1 id1).contexts
          chatId = [c1]
      ∧ c1.confidence = conf1
      ∧ (conf1 < conf2 →
          (addContext env
              (addContext env st chatId content ctype conf1 meta1 now1 id1)
              chatId content ctype conf2 meta2 now2 id2).contexts chatId
            = [{ c1 with
                  confidence := conf2,
                  metadata := mergeMeta c1.metadata meta2,
                  timestamp := now2 }])
      ∧ (conf2 ≤ conf1 →
          addContext env
              (addContext env st chatId content ctype conf1 meta1 now1 id1)
              chatId content ctype conf2 meta2 now2 id2
            = addContext env st chatId content ctype conf1 meta1 now1 id1))
  ∧ (∀ (st3 : SCMState) (chA : String) (content3 : Str) (ctype3 : CtxType)
        (conf3 : ℚ) (meta3 : List (String × MetaVal)) (now3 : ℤ)
        (id3 : String) (ch : String),
      ((st3.contexts ch).map (fun c => c.id)).Nodup →
      (∀ c ∈ st3.contexts ch, c.id ≠ id3) →
      ∀ c2 ∈ (addContext env st3 chA content3 ctype3 conf3 meta3 now3
          id3).contexts ch,
        ∀ c1 ∈ st3.contexts ch, c2.id = c1.id →
          c1.confidence ≤ c2.confidence)

/-- C6: adding identical content twice to the same chat yields exactly one
stored context, updated in place only by strictly higher confidence. -/
theorem c6_idempotent_add (env : SCMEnv) (st : SCMState) (chatId : String)
    (content : Str) (ctype : CtxType) (conf1 conf2 : ℚ)
    (meta1 meta2 : List (String × MetaVal)) (now1 now2 : ℤ)
    (id1 id2 : String)
    (h10 : ¬(cleanContent content).length < 10)
    (hne : ¬(trimStr (Embed.normalizeText (cleanContent content))).length = 0)
    (hempty : st.contexts chatId = [])
    (hhash : generateSemanticHash (cleanContent content) ∉ st.seenHashes)
    (h20 : ¬((cleanContent (cleanContent content)).length = 0
        ∨ (trimStr (cleanContent (cleanContent content))).length < 20))
    (hemb : sumSquares (embedOf env (cleanContent content)) ≠ 0) :
    C6Statement env st chatId content ctype conf1 conf2 meta1 meta2 now1
      now2 id1 id2 := by
  obtain ⟨hadd1, hctxs, hseen⟩ := addContext_first env st chatId content
    ctype conf1 meta1 now1 id1 h10 hne hempty hhash h20
  have hst1ctx : (addContext env st chatId content ctype conf1 meta1 now1
      id1).contexts chatId
      = [newCtx env st chatId content ctype conf1 meta1 now1 id1] := by
    rw [hadd1]
    exact hctxs
  have hmem : generateSemanticHash (cleanContent content)
      ∈ (addContext env st chatId content ctype conf1 meta1 now1
          id1).seenHashes := by
    rw [hadd1, hseen]
    exact List.mem_append_right _ (List.mem_singleton_self _)
  have hsecond : addContext env
      (addContext env st chatId content ctype conf1 meta1 now1 id1)
      chatId content ctype conf2 meta2 now2 id2
      = updateExistingContext env
          (addContext env st chatId content ctype conf1 meta1 now1 id1)
          chatId (cleanContent content) conf2 meta2 now2 :=
    addContext_dup env _ chatId content ctype conf2 meta2 now2 id2 h10 hne
      (Or.inl hmem)
  have hcos : cosineSimilarity (embedOf env (cleanContent content))
      (newCtx env st chatId content ctype conf1 meta1 now1 id1).embedding
      = 1 := cosineSimilarity_self _ hemb
  have hbm : bestMatch (embedOf env (cleanContent content))
      ((addContext env st chatId content ctype conf1 meta1 now1
        id1).contexts chatId)
      = (cosineSimilarity (embedOf env (cleanContent content))
          (newCtx env st chatId content ctype conf1 meta1 now1 id1).embedding,
        some (0, newCtx env st chatId content ctype conf1 meta1 now1 id1)) := by
    rw [hst1ctx]
    exact bestMatch_single _ _ (by rw [hcos]; norm_num)
  have hupdate : updateExistingContext env
      (addContext env st chatId content ctype conf1 meta1 now1 id1)
      chatId (cleanContent content) conf2 meta2 now2
      = if conf1 < conf2 then
          { (addContext env st chatId content ctype conf1 meta1 now1 id1) with
              contexts := Function.update
                (addContext env st chatId content ctype conf1 meta1 now1
                  id1).contexts chatId
                (((addContext env st chatId content ctype conf1 meta1 now1
                    id1).contexts chatId).set 0
                  { newCtx env st chatId content ctype conf1 meta1 now1 id1 with
                      confidence := conf2,
                      metadata := mergeMeta
                        (newCtx env st chatId content ctype conf1 meta1 now1
                          id1).metadata meta2,
                      timestamp := now2 }) }
        else addContext env st chatId content ctype conf1 meta1 now1 id1 := by
    unfold updateExistingContext
    rw [hbm]
    simp only
    rw [hcos, if_pos (by norm_num [duplicateThreshold])]
    rfl
  refine ⟨by rw [hst1ctx]; rfl,
    ⟨newCtx env st chatId content ctype conf1 meta1 now1 id1, hst1ctx, rfl,
      ?_, ?_⟩, ?_⟩
  · intro hlt
    rw [hsecond, hupdate, if_pos hlt]
    show Function.update _ chatId _ chatId = _
    rw [Function.update_same, hst1ctx]
    rfl
  · intro hle
    rw [hsecond, hupdate, if_neg (not_lt.mpr hle)]
  · intro st3 chA content3 ctype3 conf3 meta3 now3 id3 ch hnodup hfresh
    exact addContext_confidence_mono env st3 chA content3 ctype3 conf3 meta3
      now3 id3 ch hnodup hfresh

end SCM

/-- Closed witness for `SCM.c6_idempotent_add`: a concrete environment,
an initially empty store and a concrete sentence, with confidences
9/10 then 19/20. -/
theorem c6_idempotent_add_witness :
    SCM.C6Statement ⟨fun _ => [(1 : ℚ)], fun _ _ => none⟩
      ⟨fun _ => [], [], fun _ => none⟩ "chat1"
      ("the eiffel tower is located in paris france".data)
      CtxType.user_input (9/10) (19/20) [] [] 100 200 "id1" "id2" :=
  SCM.c6_idempotent_add _ _ _ _ _ _ _ _ _ _ _ _ _
    (by decide) (by decide) rfl (by simp) (by decide)
    (by norm_num [SCM.embedOf, sumSquares])

namespace SCM

/-- A vector of zero norm makes the cosine similarity 0. -/
theorem cosineSimilarity_zero_right (a b : List ℚ) (h : sumSquares b = 0) :
    cosineSimilarity a b = 0 := by
  unfold cosineSimilarity
  rw [if_pos (Or.inr (by rw [h]; simp))]

/-- When every gate of the storing branch is open, `addContext` stores the
new context, indexes it and enforces the cap. -/
theorem addContext_store (env : SCMEnv) (st : SCMState) (chatId : String)
    (content : Str) (ctype : CtxType) (confidence : ℚ)
    (metadata : List (String × MetaVal)) (now : ℤ) (freshId : String)
    (h10 : ¬(cleanContent content).length < 10)
    (hne : ¬(trimStr (Embed.normalizeText (cleanContent content))).length = 0)
    (hdup : ¬ isDuplicateP st chatId (cleanContent content)
      (embedOf env (cleanContent content)))
    (hextract : ¬((extractAdditionalInfo env st chatId
          (cleanContent content)).length = 0
        ∨ (trimStr (extractAdditionalInfo env st chatId
            (cleanContent content))).length < 20)) :
    addContext env st chatId content ctype confidence metadata now freshId
      = maintainContextLimits now chatId
          (pushedState env st chatId content ctype confidence metadata now
            freshId) := by
  unfold addContext
  rw [if_neg h10, if_neg hne, if_neg hdup, if_neg hextract]

/-- An environment whose extraction LLM always returns a fixed text that
differs from the submitted content. -/
def c7Env : SCMEnv :=
  ⟨fun _ => [1],
   fun _ _ => some ("completely different extracted information text".data)⟩

/-- A pre-existing context with a zero embedding, so that no embedding
similarity can flag the new content as a duplicate. -/
def c7Ctx0 : SemanticContext :=
  { id := "c0", content := "existing knowledge base entry".data,
    embedding := [0], semanticHash := "h0".data, confidence := 1/2,
    contextType := CtxType.user_input, metadata := [], timestamp := 0 }

/-- A store whose chat A already holds `c7Ctx0`. -/
def c7St : SCMState :=
  ⟨fun ch => if ch = "A" then [c7Ctx0] else [], [], fun _ => none⟩

/-- The submitted content of the concrete run. -/
def c7Content : Str := "the eiffel tower is located in paris".data

/-- In the concrete run the new content is not flagged as a duplicate:
its hash is unseen and the only stored context has a zero embedding. -/
theorem c7_not_dup : ¬ isDuplicateP c7St "A" (cleanContent c7Content)
    (embedOf c7Env (cleanContent c7Content)) := by
  intro h
  rcases h with h | ⟨c, hc, hcos⟩
  · exact List.not_mem_nil _ h
  · have hc0 : c = c7Ctx0 := by
      have hm : c ∈ [c7Ctx0] := by simpa [c7St] using hc
      simpa using hm
    subst hc0
    rw [cosineSimilarity_zero_right _ _ (by norm_num [c7Ctx0, sumSquares])]
      at hcos
    norm_num [duplicateThreshold] at hcos

set_option maxHeartbeats 1000000 in
/-- C7 amended: a context stored by the storing branch of `addContext`
carries the semantic hash of the submitted content as cleaned, while its
stored `content` field is the extraction result, which need not normalize
back to the hashed text. -/
theorem c7_amended (env : SCMEnv) (st : SCMState) (chatId : String)
    (content : Str) (ctype : CtxType) (confidence : ℚ)
    (metadata : List (String × MetaVal)) (now : ℤ) (freshId : String)
    (h10 : ¬(cleanContent content).length < 10)
    (hne : ¬(trimStr (Embed.normalizeText (cleanContent content))).length = 0)
    (hdup : ¬ isDuplicateP st chatId (cleanContent content)
      (embedOf env (cleanContent content)))
    (hextract : ¬((extractAdditionalInfo env st chatId
          (cleanContent content)).length = 0
        ∨ (trimStr (extractAdditionalInfo env st chatId
            (cleanContent content))).length < 20)) :
    addContext env st chatId content ctype confidence metadata now freshId
      = maintainContextLimits now chatId
          (pushedState env st chatId content ctype confidence metadata now
            freshId)
    ∧ newCtx env st chatId content ctype confidence metadata now freshId
        ∈ (pushedState env st chatId content ctype confidence metadata now
            freshId).contexts chatId
    ∧ (newCtx env st chatId content ctype confidence metadata now
        freshId).semanticHash
      = generateSemanticHash (cleanContent content)
    ∧ (newCtx env st chatId content ctype confidence metadata now
        freshId).content
      = extractAdditionalInfo env st chatId (cleanContent content) := by
  refine ⟨addContext_store env st chatId content ctype confidence metadata
    now freshId h10 hne hdup hextract, ?_, rfl, rfl⟩
  rw [pushedState_contexts, if_pos rfl]
  exact List.mem_append_right _ (List.mem_singleton_self _)

end SCM

/-- C7 counterexample: a concrete run of `addContext` on a non-empty chat
in which the extraction LLM rewrites the content; the stored context's
`semanticHash` is not the hash of its own stored content, under either
normalization. -/
theorem c7_counterexample :
    ∃ c, c ∈ (SCM.addContext SCM.c7Env SCM.c7St "A" SCM.c7Content
        CtxType.user_input (1/2) [] 100 "n1").contexts "A"
      ∧ c.semanticHash ≠ SCM.generateSemanticHash c.content
      ∧ c.semanticHash
          ≠ SCM.generateSemanticHash (SCM.cleanContent c.content) := by
  have hstore := SCM.addContext_store SCM.c7Env SCM.c7St "A" SCM.c7Content
    CtxType.user_input (1/2) [] 100 "n1" (by decide) (by decide)
    SCM.c7_not_dup (by decide)
  have hsmall : SCM.maintainContextLimits 100 "A"
      (SCM.pushedState SCM.c7Env SCM.c7St "A" SCM.c7Content
        CtxType.user_input (1/2) [] 100 "n1")
      = SCM.pushedState SCM.c7Env SCM.c7St "A" SCM.c7Content
          CtxType.user_input (1/2) [] 100 "n1" := by
    apply SCM.maintain_small
    rw [SCM.pushedState_contexts, if_pos rfl]
    decide
  refine ⟨SCM.newCtx SCM.c7Env SCM.c7St "A" SCM.c7Content
    CtxType.user_input (1/2) [] 100 "n1", ?_, ?_, ?_⟩
  · rw [hstore, hsmall, SCM.pushedState_contexts, if_pos rfl]
    exact List.mem_append_right _ (List.mem_singleton_self _)
  · decide
  · decide

/-- Closed witness for `SCM.c7_amended` at the concrete run of the
counterexample environment. -/
theorem c7_amended_witness :
    SCM.addContext SCM.c7Env SCM.c7St "A" SCM.c7Content CtxType.user_input
        (1/2) [] 100 "n1"
      = SCM.maintainContextLimits 100 "A"
          (SCM.pushedState SCM.c7Env SCM.c7St "A" SCM.c7Content
            CtxType.user_input (1/2) [] 100 "n1")
    ∧ SCM.newCtx SCM.c7Env SCM.c7St "A" SCM.c7Content CtxType.user_input
        (1/2) [] 100 "n1"
      ∈ (SCM.pushedState SCM.c7Env SCM.c7St "A" SCM.c7Content
          CtxType.user_input (1/2) [] 100 "n1").contexts "A"
    ∧ (SCM.newCtx SCM.c7Env SCM.c7St "A" SCM.c7Content CtxType.user_input
        (1/2) [] 100 "n1").semanticHash
      = SCM.generateSemanticHash (SCM.cleanContent SCM.c7Content)
    ∧ (SCM.newCtx SCM.c7Env SCM.c7St "A" SCM.c7Content CtxType.user_input
        (1/2) [] 100 "n1").content
      = SCM.extractAdditionalInfo SCM.c7Env SCM.c7St "A"
          (SCM.cleanContent SCM.c7Content) :=
  SCM.c7_amended SCM.c7Env SCM.c7St "A" SCM.c7Content CtxType.user_input
    (1/2) [] 100 "n1" (by decide) (by decide) SCM.c7_not_dup (by decide)

/-! ## Deduplication pipeline (src/rag/deduplicator.ts, checkDuplication) -/

namespace Dedup

/-- `DeduplicationConfig` with the constructor defaults. -/
structure DeduplicationConfig where
  exactMatchThreshold : ℚ := 95/100
  semanticSimilarityThreshold : ℚ := 85/100
  paraphraseThreshold : ℚ := 75/100
  enableLLMValidation : Bool := true
  maxLLMValidationLength : ℕ := 500

/-- The configuration of a `Deduplicator` built without overrides. -/
def defaultDedupConfig : DeduplicationConfig := {}

/-- `DeduplicationResult.duplicateType`. -/
inductive DupType
  | exact
  | semantic
  | paraphrase
  | none
deriving DecidableEq

/-- `DeduplicationResult` (absent `existingContextId` is `Option.none`). -/
structure DeduplicationResult where
  isDuplicate : Bool
  similarity : ℝ
  duplicateType : DupType
  existingContextId : Option String := Option.none
  confidence : ℚ

/-- The three caches of the `Deduplicator`, as insertion-ordered maps. -/
structure DedupState where
  exactMatchCache : List (Str × String) := []
  semanticHashCache : List (Str × String) := []
  llmValidationCache : List (Str × Bool) := []

/-- A freshly constructed `Deduplicator` has empty caches. -/
def emptyDedupState : DedupState := {}

/-- `maxCacheSize`. -/
def maxCacheSize : ℕ := 2000

/-- `manageCacheSize`: at 2000 entries the first (oldest-inserted) 20
percent of the keys are deleted. -/
def manageCacheSize {α : Type} (cache : List (Str × α)) : List (Str × α) :=
  if maxCacheSize ≤ cache.length then cache.drop 400 else cache

/-- One inner row of the `levenshteinDistance` dynamic programme: `left`
is the cell just written in the current row, and the second list slides a
two-cell window over the previous row. -/
def levRow (c2 : Char) : Str → List ℕ → ℕ → List ℕ
  | [], _, _ => []
  | c1 :: rest, pPrev :: pCurr :: pRest, left =>
      let cell := min (left + 1)
        (min (pCurr + 1) (pPrev + (if c1 = c2 then 0 else 1)))
      cell :: levRow c2 rest (pCurr :: pRest) cell
  | _ :: _, _, _ => []

/-- The outer loop of `levenshteinDistance` over the rows. -/
def levRows (str1 : Str) : Str → List ℕ → ℕ → List ℕ
  | [], prev, _ => prev
  | c2 :: rest, prev, j =>
      levRows str1 rest ((j + 1) :: levRow c2 str1 prev (j + 1)) (j + 1)

/-- `levenshteinDistance`. -/
def levenshteinDistance (str1 str2 : Str) : ℕ :=
  (levRows str1 str2 (List.range (str1.length + 1)) 0).getLastD 0

/-- The textbook value on the classic example. -/
theorem levenshteinDistance_example :
    levenshteinDistance ("kitten".data) ("sitting".data) = 3 := by decide

/-- `calculateCharacterSimilarity`, with the longer/shorter selection of
the source inlined into the two branches (`str1` is the longer string
only when strictly longer). -/
def calculateCharacterSimilarity (str1 str2 : Str) : ℚ :=
  if str2.length < str1.length then
    if str1.length = 0 then 1
    else ((str1.length : ℚ) - (levenshteinDistance str1 str2 : ℚ))
      / (str1.length : ℚ)
  else
    if str2.length = 0 then 1
    else ((str2.length : ℚ) - (levenshteinDistance str2 str1 : ℚ))
      / (str2.length : ℚ)

/-- The result returned whenever no tier flags a duplicate. -/
noncomputable def noDupResult : DeduplicationResult :=
  { isDuplicate := false, similarity := 0, duplicateType := DupType.none,
    confidence := 1 }

/-- The exact-tier result for a context matched by hash or by character
similarity. -/
noncomputable def exactResult (sim : ℚ) (contextId : String) (conf : ℚ) :
    DeduplicationResult :=
  { isDuplicate := true, similarity := (sim : ℝ),
    duplicateType := DupType.exact, existingContextId := some contextId,
    confidence := conf }

/-- The semantic-hash-tier result. -/
noncomputable def semanticHashResult (contextId : String) : DeduplicationResult :=
  { isDuplicate := true, similarity := 9/10,
    duplicateType := DupType.semantic, existingContextId := some contextId,
    confidence := 9/10 }

/-- The state after `checkExactMatch` caches a hash match. -/
def stWithExact (st : DedupState) (newHash : Str) (contextId : String) :
    DedupState :=
  { st with exactMatchCache :=
      mapSet (manageCacheSize st.exactMatchCache) newHash contextId }

/-- The state after `checkSemanticHash` caches a hash match. -/
def stWithSemantic (st : DedupState) (semanticHash : Str)
    (contextId : String) : DedupState :=
  { st with semanticHashCache :=
      mapSet (manageCacheSize st.semanticHashCache) semanticHash contextId }

/-- The state after `validateWithLLM` caches a verdict. -/
def stWithLLM (st : DedupState) (cacheKey : Str) (verdict : Bool) :
    DedupState :=
  { st with llmValidationCache :=
      mapSet (manageCacheSize st.llmValidationCache) cacheKey verdict }

/-- The loop of `checkExactMatch` over the existing contexts. -/
noncomputable def exactLoop (cfg : DeduplicationConfig) (st : DedupState)
    (normalizedNew newHash : Str) :
    List SemanticContext → DeduplicationResult × DedupState
  | [] => (noDupResult, st)
  | context :: rest =>
      if newHash = generateContentHash
          (normalizeForComparison context.content) then
        (exactResult 1 context.id 1, stWithExact st newHash context.id)
      else
        if cfg.exactMatchThreshold
            ≤ calculateCharacterSimilarity normalizedNew
                (normalizeForComparison context.content) then
          (exactResult
            (calculateCharacterSimilarity normalizedNew
              (normalizeForComparison context.content))
            context.id (95/100), st)
        else exactLoop cfg st normalizedNew newHash rest

/-- `checkExactMatch`: cache hit, then hash equality or character
similarity at least `exactMatchThreshold` against each stored context. -/
noncomputable def checkExactMatch (cfg : DeduplicationConfig) (st : DedupState)
    (newContent : Str) (existingContexts : List SemanticContext) :
    DeduplicationResult × DedupState :=
  match mapGet st.exactMatchCache
      (generateContentHash (normalizeForComparison newContent)) with
  | some existingContextId => (exactResult 1 existingContextId 1, st)
  | Option.none =>
      exactLoop cfg st (normalizeForComparison newContent)
        (generateContentHash (normalizeForComparison newContent))
        existingContexts

/-- The loop of `checkSemanticHash` over the existing contexts. -/
noncomputable def semLoop (st : DedupState) (semanticHash : Str) :
    List SemanticContext → DeduplicationResult × DedupState
  | [] => (noDupResult, st)
  | context :: rest =>
      if context.semanticHash = semanticHash then
        (semanticHashResult context.id,
         stWithSemantic st semanticHash context.id)
      else semLoop st semanticHash rest

/-- `checkSemanticHash`: cache hit, then hash equality against the
`semanticHash` stored in each context. -/
noncomputable def checkSemanticHash (st : DedupState) (newContent : Str)
    (existingContexts : List SemanticContext) :
    DeduplicationResult × DedupState :=
  match mapGet st.semanticHashCache (generateSemanticHash newContent) with
  | some existingContextId => (semanticHashResult existingContextId, st)
  | Option.none =>
      semLoop st (generateSemanticHash newContent) existingContexts

open Classical in
/-- The maximum-similarity scan of `checkEmbeddingSimilarity` (a strictly
greater similarity replaces the running best). -/
noncomputable def embedLoop (newEmbedding : List ℚ) :
    List SemanticContext → ℝ × Option SemanticContext →
      ℝ × Option SemanticContext
  | [], acc => acc
  | context :: rest, acc =>
      embedLoop newEmbedding rest
        (if acc.1 < cosineSimilarity newEmbedding context.embedding then
          (cosineSimilarity newEmbedding context.embedding, some context)
        else acc)

/-- The embedding-tier duplicate verdict at a given similarity. -/
noncomputable def embedResult (sim : ℝ) (t : DupType) (contextId : Option String)
    (conf : ℚ) : DeduplicationResult :=
  { isDuplicate := true, similarity := sim, duplicateType := t,
    existingContextId := contextId, confidence := conf }

/-- The embedding-tier non-duplicate verdict, which keeps the measured
similarity. -/
noncomputable def embedNoDup (sim : ℝ) : DeduplicationResult :=
  { isDuplicate := false, similarity := sim,
    duplicateType := DupType.none, confidence := 1 }

open Classical in
/-- `checkEmbeddingSimilarity`: the embeddings client is an oracle
parameter; thresholds at 0.85 (semantic, confidence 0.85) and 0.75
(paraphrase, confidence 0.75). -/
noncomputable def checkEmbeddingSimilarity (cfg : DeduplicationConfig)
    (svcEmbed : Str → List ℚ) (newContent : Str)
    (existingContexts : List SemanticContext) : DeduplicationResult :=
  let r := embedLoop (svcEmbed newContent) existingContexts (0, Option.none)
  if ((cfg.semanticSimilarityThreshold : ℚ) : ℝ) ≤ r.1 then
    embedResult r.1 DupType.semantic (r.2.map (fun c => c.id)) (85/100)
  else if ((cfg.paraphraseThreshold : ℚ) : ℝ) ≤ r.1 then
    embedResult r.1 DupType.paraphrase (r.2.map (fun c => c.id)) (75/100)
  else embedNoDup r.1

/-- `validateWithLLM`: the LLM collaborator is an oracle from the two
contents to an optional response; `Option.none` models a thrown query,
which the catch block turns into `false` without caching. -/
def validateWithLLM (st : DedupState) (llmResp : Str → Str → Option Str)
    (newContent existingContent : Str) : Bool × DedupState :=
  match mapGet st.llmValidationCache (generateContentHash
      (newContent ++ [Char.ofNat 124] ++ existingContent)) with
  | some v => (v, st)
  | Option.none =>
      match llmResp newContent existingContent with
      | Option.none => (false, st)
      | some resp =>
          (toUpperStr (trimStr resp) == "DUPLICATE".data,
           stWithLLM st
             (generateContentHash
               (newContent ++ [Char.ofNat 124] ++ existingContent))
             (toUpperStr (trimStr resp) == "DUPLICATE".data))

/-- The verdict returned when the LLM rejects an embedding match. -/
noncomputable def llmRejected (sim : ℝ) : DeduplicationResult :=
  { isDuplicate := false, similarity := sim,
    duplicateType := DupType.none, confidence := 8/10 }

open Classical in
/-- `checkDuplication`: empty store short-circuit, then the exact,
semantic-hash and embedding tiers; a firing embedding tier is routed to
LLM validation only when the similarity is below
`semanticSimilarityThreshold + 0.1` and the content is at most
`maxLLMValidationLength` characters, and otherwise falls through to the
final `isDuplicate: false` return of lines 140-145.  The `chatId`
argument of the source is only forwarded to the LLM collaborator and is
absorbed into the oracle. -/
noncomputable def checkDuplication (cfg : DeduplicationConfig)
    (st : DedupState) (svcEmbed : Str → List ℚ)
    (llmResp : Str → Str → Option Str) (newContent : Str)
    (existingContexts : List SemanticContext) :
    DeduplicationResult × DedupState :=
  if existingContexts.length = 0 then (noDupResult, st)
  else
    let ex := checkExactMatch cfg st newContent existingContexts
    if ex.1.isDuplicate = true then ex
    else
      let se := checkSemanticHash ex.2 newContent existingContexts
      if se.1.isDuplicate = true then se
      else
        let em := checkEmbeddingSimilarity cfg svcEmbed newContent
          existingContexts
        if em.isDuplicate = false then (noDupResult, se.2)
        else
          if cfg.enableLLMValidation = true
              ∧ em.similarity
                < ((cfg.semanticSimilarityThreshold + 1/10 : ℚ) : ℝ)
              ∧ newContent.length ≤ cfg.maxLLMValidationLength then
            let lv := validateWithLLM se.2 llmResp newContent
              (((existingContexts.find? (fun c =>
                  some c.id = em.existingContextId)).map
                (fun c => c.content)).getD [])
            if lv.1 = false then (llmRejected em.similarity, lv.2)
            else (em, lv.2)
          else (noDupResult, se.2)

end Dedup

namespace Dedup

/-- The stored context of the failing run: text, hash and semantic hash
unrelated to the new content, but an identical embedding. -/
def c1CtxA : SemanticContext :=
  { id := "a", content := "zeta theta iota kappa".data, embedding := [1],
    semanticHash := "zzz".data, confidence := 1/2,
    contextType := CtxType.user_input, metadata := [], timestamp := 0 }

/-- The new content of the failing run. -/
def c1Content : Str := "alpha beta gamma".data

/-- An embedding service that maps every text to the same unit vector, so
the measured cosine similarity is exactly 1. -/
def c1Embed : Str → List ℚ := fun _ => [1]

/-- The exact tier does not fire on the failing run: the hashes differ
and the character similarity is 9/21. -/
theorem c1_exact_no_fire :
    checkExactMatch defaultDedupConfig emptyDedupState c1Content [c1CtxA]
      = (noDupResult, emptyDedupState) := by
  have hcs : ¬ defaultDedupConfig.exactMatchThreshold
      ≤ calculateCharacterSimilarity (normalizeForComparison c1Content)
          (normalizeForComparison c1CtxA.content) := by
    have hlev : levenshteinDistance (normalizeForComparison c1CtxA.content)
        (normalizeForComparison c1Content) = 12 := by decide
    have hl2 : (normalizeForComparison c1CtxA.content).length = 21 := by
      decide
    show ¬ ((95 : ℚ)/100 ≤ _)
    unfold calculateCharacterSimilarity
    rw [if_neg (by decide), if_neg (by decide), hlev, hl2]
    norm_num
  show exactLoop defaultDedupConfig emptyDedupState
      (normalizeForComparison c1Content)
      (generateContentHash (normalizeForComparison c1Content)) [c1CtxA] = _
  simp only [exactLoop]
  rw [if_neg (by decide), if_neg hcs]

/-- The semantic-hash tier does not fire on the failing run. -/
theorem c1_sem_no_fire :
    checkSemanticHash emptyDedupState c1Content [c1CtxA]
      = (noDupResult, emptyDedupState) := by
  show semLoop emptyDedupState (generateSemanticHash c1Content) [c1CtxA] = _
  simp only [semLoop]
  rw [if_neg (by decide)]

/-- The embedding tier measures similarity 1 and flags a semantic
duplicate on the failing run. -/
theorem c1_embed_fires :
    checkEmbeddingSimilarity defaultDedupConfig c1Embed c1Content [c1CtxA]
      = embedResult 1 DupType.semantic (some "a") (85/100) := by
  have hcos : cosineSimilarity (c1Embed c1Content) c1CtxA.embedding = 1 :=
    cosineSimilarity_self [1] (by norm_num [sumSquares])
  have h1 : (((0 : ℝ), (Option.none : Option SemanticContext)).1) < 1 := by
    norm_num
  unfold checkEmbeddingSimilarity
  simp only [embedLoop]
  rw [hcos, if_pos h1]
  norm_num [defaultDedupConfig, embedResult, c1CtxA]

/-- On the failing run, `checkDuplication` returns a non-duplicate
verdict whatever the LLM oracle answers: the gate on LLM validation is
closed because the similarity is not below 0.95, and control falls
through to the final non-duplicate return. -/
theorem c1_run (llmResp : Str → Str → Option Str) :
    checkDuplication defaultDedupConfig emptyDedupState c1Embed llmResp
      c1Content [c1CtxA] = (noDupResult, emptyDedupState) := by
  simp only [checkDuplication]
  rw [if_neg (by decide), c1_exact_no_fire]
  rw [if_neg (by decide), c1_sem_no_fire]
  rw [if_neg (by decide), c1_embed_fires]
  rw [if_neg (by decide)]
  rw [if_neg (by
    intro hcond
    have h2 := hcond.2.1
    norm_num [embedResult, defaultDedupConfig] at h2)]

end Dedup

/-- C1: the claim fails against the code.  In the failing run the exact
and semantic-hash tiers do not fire, the embedding tier measures maximum
cosine similarity 1 (at least 0.85) and itself flags a semantic
duplicate — yet `checkDuplication` returns `isDuplicate = false`,
whatever the LLM oracle would answer, because a similarity of at least
`semanticSimilarityThreshold + 0.1` closes the LLM-validation gate and
control falls through to the final non-duplicate return. -/
theorem c1_embedding_tier_fallthrough :
    (Dedup.checkExactMatch Dedup.defaultDedupConfig Dedup.emptyDedupState
        Dedup.c1Content [Dedup.c1CtxA]).1.isDuplicate = false
    ∧ (Dedup.checkSemanticHash Dedup.emptyDedupState Dedup.c1Content
        [Dedup.c1CtxA]).1.isDuplicate = false
    ∧ (Dedup.checkEmbeddingSimilarity Dedup.defaultDedupConfig
        Dedup.c1Embed Dedup.c1Content [Dedup.c1CtxA]).similarity = 1
    ∧ (Dedup.checkEmbeddingSimilarity Dedup.defaultDedupConfig
        Dedup.c1Embed Dedup.c1Content [Dedup.c1CtxA]).isDuplicate = true
    ∧ (Dedup.checkEmbeddingSimilarity Dedup.defaultDedupConfig
        Dedup.c1Embed Dedup.c1Content
        [Dedup.c1CtxA]).duplicateType = Dedup.DupType.semantic
    ∧ (Dedup.checkDuplication Dedup.defaultDedupConfig
        Dedup.emptyDedupState Dedup.c1Embed (fun _ _ => Option.none)
        Dedup.c1Content [Dedup.c1CtxA]).1.isDuplicate = false
    ∧ (Dedup.checkDuplication Dedup.defaultDedupConfig
        Dedup.emptyDedupState Dedup.c1Embed
        (fun _ _ => some ("DUPLICATE".data)) Dedup.c1Content
        [Dedup.c1CtxA]).1.isDuplicate = false := by
  refine ⟨?_, ?_, ?_, ?_, ?_, ?_, ?_⟩
  · rw [Dedup.c1_exact_no_fire]
    rfl
  · rw [Dedup.c1_sem_no_fire]
    rfl
  · rw [Dedup.c1_embed_fires]
    rfl
  · rw [Dedup.c1_embed_fires]
    rfl
  · rw [Dedup.c1_embed_fires]
    rfl
  · rw [Dedup.c1_run]
    rfl
  · rw [Dedup.c1_run]
    rfl
